import Mathlib

/-!
# RenderUtil (SoAVoxelEditor): the brush mesher and the reference cursor

A shallow embedding of `src/SoAVoxelEditor/RenderUtil.cpp`.

* `float` values are exact rationals, the cast `(int)` is truncation toward zero.
* The static members of `RenderUtil` are the fields of `RenderState`; the OpenGL
  context is the field `gpu`, an explicit record of the buffer names handed out,
  the bindings, the data copied by `glBufferData` and the draw calls.
* An array read outside its bounds has no defined result in C++: such a read
  makes the embedded function return `none`. The same holds for a read through
  a pointer whose object has been deleted (`MeshPtr.freed`).
* Shader binding, the camera matrices, the light direction and console output do
  not touch the state modelled here and are left out.
* `cubeVertices` and `cubeNormals` (tables declared outside this file) are
  parameters, given by their indexing function.
-/

namespace RenderUtil

/-! ## Data -/

/-- A `glm::vec3`. -/
structure Vec3 where
  x : ℚ
  y : ℚ
  z : ℚ
deriving DecidableEq

/-- Component-wise `+` of `glm::vec3`. -/
def Vec3.add (a d : Vec3) : Vec3 := ⟨a.x + d.x, a.y + d.y, a.z + d.z⟩

/-- The conversion `glm::vec3(x, y, z)` of three `int`s. -/
def Vec3.ofInts (x y z : Int) : Vec3 := ⟨(x : ℚ), (y : ℚ), (z : ℚ)⟩

/-- The C cast `(int)f` of a float: truncation toward zero. The cast is defined
in C++ only when the truncated value is representable in the 32-bit `int`
(`intCastDefined`); this function gives the truncated value for every `q`. -/
def truncate (q : ℚ) : Int := Int.tdiv q.num q.den

/-- The C cast `(GLubyte)f` of a float: the truncated value, as a byte. -/
def toGLubyte (q : ℚ) : Nat := (truncate q % 256).toNat

/-- The member `GLubyte color[4]` of a vertex. -/
structure Rgba where
  c0 : Nat
  c1 : Nat
  c2 : Nat
  c3 : Nat
deriving DecidableEq

/-- The interleaved vertex record `BlockVertex`. -/
structure BlockVertex where
  position : Vec3
  color : Rgba
  normal : Vec3
deriving DecidableEq

/-- The statement `tv.position += pos`. -/
def BlockVertex.translate (v : BlockVertex) (pos : Vec3) : BlockVertex :=
  { v with position := v.position.add pos }

/-- A value-initialised vertex. -/
def BlockVertex.zero : BlockVertex := ⟨⟨0, 0, 0⟩, ⟨0, 0, 0, 0⟩, ⟨0, 0, 0⟩⟩

/-- The record `BlockMesh`: the array `verts` of 24 vertices (6 faces of 4). -/
structure BlockMesh where
  verts : List BlockVertex
deriving DecidableEq

/-- The element `m.verts[i]`. -/
def BlockMesh.vert (m : BlockMesh) (i : Nat) : BlockVertex := m.verts.getD i BlockVertex.zero

/-- A default-constructed `BlockMesh()`. -/
def BlockMesh.blank : BlockMesh := ⟨List.replicate 24 BlockVertex.zero⟩

/-- The record `Mesh`: two buffer names and an index count. -/
structure Mesh where
  vboID : Nat
  iboID : Nat
  numIndices : Nat
deriving DecidableEq

/-- A pointer to a `Mesh` made with `new`: null, pointing to a live object, or
still holding the address of an object that `delete` has destroyed. -/
inductive MeshPtr where
  | null
  | live (m : Mesh)
  | freed (m : Mesh)
deriving DecidableEq

/-- The brush: dimensions and the flat array of voxels, each given by its `type`
tag (`'\0'`, here 0, is unoccupied). -/
structure Brush where
  width : Int
  height : Int
  length : Int
  voxels : List Nat
deriving DecidableEq

/-- The voxel array has `width*height*length` elements. -/
def Brush.WellFormed (b : Brush) : Prop :=
  (b.voxels.length : Int) = b.width * b.height * b.length

/-- The read `brush->voxels[i].type`; `none` when `i` is outside the array. -/
def Brush.voxelType (b : Brush) (i : Int) : Option Nat :=
  if 0 ≤ i then b.voxels[i.toNat]? else none

/-- The cell index `z*width*height + y*width + x`. -/
def Brush.cellIndex (b : Brush) (x y z : Int) : Int :=
  z * b.width * b.height + y * b.width + x

/-! ## The OpenGL context -/

/-- What one `glBufferData` call copies into a buffer. -/
inductive BufferData where
  | blockVertices (vs : List BlockVertex)
  | points (ps : List Vec3)
  | indices (ixs : List Nat)
deriving DecidableEq

/-- The part of the OpenGL context the renderer acts on. `generated` counts the
buffer names handed out so far (names are 1, 2, ...; 0 is no buffer). -/
structure Gpu where
  generated : Nat
  arrayBuffer : Nat
  elementArrayBuffer : Nat
  uploads : List (Nat × BufferData)
  deleted : List Nat
  drawn : List Nat
deriving DecidableEq

/-- The call `glGenBuffers(1, &id)`: a fresh name. -/
def Gpu.glGenBuffers (g : Gpu) : Nat × Gpu :=
  (g.generated + 1, { g with generated := g.generated + 1 })

/-- The call `glBindBuffer(GL_ARRAY_BUFFER, id)`. -/
def Gpu.bindArrayBuffer (g : Gpu) (id : Nat) : Gpu := { g with arrayBuffer := id }

/-- The call `glBindBuffer(GL_ELEMENT_ARRAY_BUFFER, id)`. -/
def Gpu.bindElementArrayBuffer (g : Gpu) (id : Nat) : Gpu :=
  { g with elementArrayBuffer := id }

/-- The call `glBufferData(GL_ARRAY_BUFFER, ...)` on the bound buffer. -/
def Gpu.arrayBufferData (g : Gpu) (d : BufferData) : Gpu :=
  { g with uploads := g.uploads ++ [(g.arrayBuffer, d)] }

/-- The call `glBufferData(GL_ELEMENT_ARRAY_BUFFER, ...)` on the bound buffer. -/
def Gpu.elementArrayBufferData (g : Gpu) (d : BufferData) : Gpu :=
  { g with uploads := g.uploads ++ [(g.elementArrayBuffer, d)] }

/-- The call `glDrawElements(mode, count, ...)`. -/
def Gpu.glDrawElements (g : Gpu) (count : Nat) : Gpu := { g with drawn := g.drawn ++ [count] }

/-- A context in which nothing has happened yet. -/
def Gpu.fresh : Gpu := ⟨0, 0, 0, [], [], []⟩

/-! ## The static members of `RenderUtil` -/

/-- The static members of `RenderUtil` and the OpenGL context. -/
structure RenderState where
  _mesh : MeshPtr
  _referenceCubeMesh : Option Mesh
  _referenceCubeIndices : List Nat
  _brushIndices : List Nat
  _lastPosition : Vec3
  _voxVerts : BlockMesh
  _voxBaseVerts : BlockMesh
  _brushVerts : List BlockVertex
  gpu : Gpu
deriving DecidableEq

/-- The static initialisers (lines 7-14). -/
def startup : RenderState where
  _mesh := .null
  _referenceCubeMesh := none
  _referenceCubeIndices := List.replicate 36 0
  _brushIndices := []
  _lastPosition := ⟨-1, -1, -1⟩
  _voxVerts := BlockMesh.blank
  _voxBaseVerts := BlockMesh.blank
  _brushVerts := []
  gpu := Gpu.fresh

/-! ## uploadMesh -/

/-- The function `uploadMesh` for `BlockVertex` data. The two out-pointers are
the fields of `m`; the result is `m` with the names written through them. -/
def uploadMesh (g : Gpu) (m : Mesh) (blockVertices : List BlockVertex) (numVertices : Nat)
    (indices : List Nat) (numIndices : Nat) : Mesh × Gpu :=
  let (vbo, g) := g.glGenBuffers
  let (ibo, g) := g.glGenBuffers
  let g := g.bindArrayBuffer vbo
  let g := g.arrayBufferData (.blockVertices (blockVertices.take numVertices))
  let g := g.bindElementArrayBuffer ibo
  let g := g.elementArrayBufferData (.indices (indices.take numIndices))
  ({ m with vboID := vbo, iboID := ibo }, g)

/-! ## Index generation -/

/-- The six indices written for the quad whose first vertex is `j`. -/
def quadTemplate (j : Nat) : List Nat := [j, j + 1, j + 2, j + 2, j + 3, j]

/-- The closed form of a filled index array of `quads` quads: `quadTemplate (4*k)`
at positions `6*k .. 6*k+5` for each `k < quads`. -/
def quadIndices (quads : Nat) : List Nat :=
  (List.range quads).flatMap fun k => quadTemplate (4 * k)

/-- The loop `for (int i = 0, j = 0; i < limit; i += 6, j += 4)` with its six
assignments `a[i] = j; a[i+1] = j+1; a[i+2] = j+2; a[i+3] = j+2; a[i+4] = j+3;
a[i+5] = j`, from the loop state `(i, j, a)`; the first argument bounds the
number of iterations. -/
def indexLoop (limit : Nat) : Nat → Nat → Nat → List Nat → List Nat
  | 0, _, _, a => a
  | fuel + 1, i, j, a =>
    if i < limit then
      indexLoop limit fuel (i + 6) (j + 4)
        ((((((a.set i j).set (i + 1) (j + 1)).set (i + 2) (j + 2)).set (i + 3) (j + 2)).set
          (i + 4) (j + 3)).set (i + 5) j)
    else a

/-- The statements `a = new GLuint[limit]` and the index loop over it. The loop
advances `i` by 6, so `limit` iterations are never exceeded. -/
def fillIndices (limit : Nat) : List Nat :=
  indexLoop limit limit 0 0 (List.replicate limit 0)

/-! ## initializeReferenceVoxel, changeReferenceColor -/

/-- The function `initializeReferenceVoxel`. -/
def initializeReferenceVoxel (cubeVertices cubeNormals : Nat → ℚ) (st : RenderState) :
    RenderState :=
  { st with
    _referenceCubeIndices := fillIndices 36
    _voxBaseVerts := ⟨(List.range 24).map fun i =>
      { position := ⟨cubeVertices (i * 3), cubeVertices (i * 3 + 1), cubeVertices (i * 3 + 2)⟩
        normal := ⟨cubeNormals (i * 3), cubeNormals (i * 3 + 1), cubeNormals (i * 3 + 2)⟩
        color := ⟨0, 0, 0, 100⟩ }⟩
    _referenceCubeMesh := some ⟨0, 0, 0⟩
    _lastPosition := ⟨-1, -1, -1⟩ }

/-- The function `changeReferenceColor`, the colour given as its four floats. -/
def changeReferenceColor (st : RenderState) (r g b a : ℚ) : RenderState :=
  { st with
    _voxBaseVerts := ⟨(List.range 24).map fun i =>
      { st._voxBaseVerts.vert i with
        color := ⟨toGLubyte r, toGLubyte g, toGLubyte b, toGLubyte a⟩ }⟩ }

/-! ## meshBrush -/

def VERTS_PER_QUAD : Nat := 4
def FRONT_INDEX : Nat := 0
def RIGHT_INDEX : Nat := 4
def TOP_INDEX : Nat := 8
def LEFT_INDEX : Nat := 12
def BOTTOM_INDEX : Nat := 16
def BACK_INDEX : Nat := 20

/-- One executed statement `addFace(&_voxBaseVerts.verts[index], glm::vec3(x, y, z))`. -/
structure FaceCall where
  index : Nat
  x : Int
  y : Int
  z : Int
deriving DecidableEq

/-- The function `addFace`: `base` is `_voxBaseVerts`, the pointer argument is
`&base.verts[c.index]`, the result is `_brushVerts` after the four `push_back`s. -/
def addFace (base : BlockMesh) (brushVerts : List BlockVertex) (c : FaceCall) :
    List BlockVertex :=
  brushVerts ++ (List.range VERTS_PER_QUAD).map fun i =>
    (base.vert (c.index + i)).translate (Vec3.ofInts c.x c.y c.z)

/-- The pattern used for each of the six faces:
`if (inside) { if (voxels[neighbour].type == '\0') addFace(f); } else addFace(f);`.
The result is the list of `addFace` calls made. -/
def faceUnless (b : Brush) (inside : Bool) (neighbour : Int) (f : FaceCall) :
    Option (List FaceCall) :=
  if inside then
    match b.voxelType neighbour with
    | none => none
    | some t => some (if t = 0 then [f] else [])
  else some [f]

/-- The body of the innermost loop of `meshBrush` at cell `(x, y, z)`: the
`addFace` calls it makes, in order. -/
def meshCell (b : Brush) (x y z : Int) : Option (List FaceCall) :=
  let voxelIndex := z * b.width * b.height + y * b.width + x
  match b.voxelType voxelIndex with
  | none => none
  | some t =>
    if t ≠ 0 then
      match faceUnless b (z < b.length - 1) (voxelIndex + (b.height + b.width))
              ⟨FRONT_INDEX, x, y, z⟩,
            faceUnless b (x < b.width - 1) (voxelIndex + 1) ⟨RIGHT_INDEX, x, y, z⟩,
            faceUnless b (y < b.height - 1) (voxelIndex + b.width) ⟨TOP_INDEX, x, y, z⟩,
            faceUnless b (x > 0) (voxelIndex - 1) ⟨LEFT_INDEX, x, y, z⟩,
            faceUnless b (y > 0) (voxelIndex - b.width) ⟨BOTTOM_INDEX, x, y, z⟩,
            faceUnless b (z > 0) (voxelIndex - (b.width * b.height)) ⟨BACK_INDEX, x, y, z⟩ with
      | some front, some right, some top, some left, some bottom, some back =>
        some (front ++ right ++ top ++ left ++ bottom ++ back)
      | _, _, _, _, _, _ => none
    else some []

/-- The values `0, 1, ..., n-1` of a loop variable `for (int i = 0; i < n; i++)`. -/
def upTo (n : Int) : List Int := (List.range n.toNat).map Int.ofNat

/-- A loop over the values `is` whose body makes `addFace` calls: all the calls,
in order. -/
def collect (body : Int → Option (List FaceCall)) : List Int → Option (List FaceCall)
  | [] => some []
  | i :: is =>
    match body i, collect body is with
    | some a, some r => some (a ++ r)
    | _, _ => none

/-- The innermost loop of `meshBrush`, over `x`, at fixed `y` and `z`. -/
def meshRow (b : Brush) (y z : Int) : Option (List FaceCall) :=
  collect (fun x => meshCell b x y z) (upTo b.width)

/-- The middle loop of `meshBrush`, over `y`, at fixed `z`. -/
def meshSlab (b : Brush) (z : Int) : Option (List FaceCall) :=
  collect (fun y => meshRow b y z) (upTo b.height)

/-- The three nested loops of `meshBrush` (z outermost, x innermost): every
`addFace` call made, in order. -/
def meshCalls (b : Brush) : Option (List FaceCall) :=
  collect (fun z => meshSlab b z) (upTo b.length)

/-- The vertex list `_brushVerts` after `clear()` and the given `addFace` calls. -/
def brushVertsOf (base : BlockMesh) (calls : List FaceCall) : List BlockVertex :=
  calls.foldl (addFace base) []

/-- The function `meshBrush`. -/
def meshBrush (st : RenderState) (brush : Brush) : Option RenderState :=
  match meshCalls brush with
  | none => none
  | some calls =>
    let verts := brushVertsOf st._voxBaseVerts calls
    some { st with
      _brushVerts := verts
      _brushIndices := fillIndices ((verts.length / 4) * 6)
      _lastPosition := ⟨0, 0, 0⟩ }

/-! ## drawReferenceVoxel -/

/-- The test of line 273: some truncated coordinate of `position` differs from
the cached one. -/
def positionChanged (position last : Vec3) : Bool :=
  truncate position.x ≠ truncate last.x || truncate position.y ≠ truncate last.y
    || truncate position.z ≠ truncate last.z

/-- The function `drawReferenceVoxel`; `brush` is `none` for a null pointer. -/
def drawReferenceVoxel (cubeVertices cubeNormals : Nat → ℚ) (st : RenderState)
    (position : Vec3) (brush : Option Brush) : Option RenderState :=
  let st := if st._referenceCubeMesh.isNone then
      initializeReferenceVoxel cubeVertices cubeNormals st else st
  let mesh := st._referenceCubeMesh.getD ⟨0, 0, 0⟩
  let rebuilt : Option RenderState :=
    if positionChanged position st._lastPosition then
      match brush with
      | none =>
        let voxVerts : BlockMesh := ⟨(List.range 24).map fun i =>
          (st._voxBaseVerts.vert i).translate position⟩
        let (mesh, gpu) := uploadMesh st.gpu mesh voxVerts.verts 24 st._referenceCubeIndices 36
        some { st with
          _voxVerts := voxVerts
          _referenceCubeMesh := some mesh
          gpu := gpu
          _lastPosition := position }
      | some _ =>
        let diff : Vec3 := ⟨position.x - st._lastPosition.x, position.y - st._lastPosition.y,
          position.z - st._lastPosition.z⟩
        let brushVerts := st._brushVerts.map fun v => v.translate diff
        -- `cout << _brushVerts[0].color[0]` reads element 0
        match brushVerts with
        | [] => none
        | _ :: _ =>
          let (mesh, gpu) := uploadMesh st.gpu mesh brushVerts brushVerts.length
            st._brushIndices ((brushVerts.length / 4) * 6)
          some { st with
            _brushVerts := brushVerts
            _referenceCubeMesh := some mesh
            gpu := gpu
            _lastPosition := position }
    else
      some { st with
        gpu := (st.gpu.bindArrayBuffer mesh.vboID).bindElementArrayBuffer mesh.iboID }
  match rebuilt with
  | none => none
  | some st =>
    match brush with
    | some _ => some { st with gpu := st.gpu.glDrawElements ((6 * st._brushVerts.length) / 4) }
    | none => some { st with gpu := st.gpu.glDrawElements 36 }

/-! ## checkGlError -/

/-- The OpenGL error code `GL_NO_ERROR`. -/
def GL_NO_ERROR : Nat := 0
/-- The OpenGL error code `GL_INVALID_ENUM` (0x0500). -/
def GL_INVALID_ENUM : Nat := 0x0500
/-- The OpenGL error code `GL_INVALID_VALUE` (0x0501). -/
def GL_INVALID_VALUE : Nat := 0x0501
/-- The OpenGL error code `GL_INVALID_OPERATION` (0x0502). -/
def GL_INVALID_OPERATION : Nat := 0x0502
/-- The OpenGL error code `GL_OUT_OF_MEMORY` (0x0505). -/
def GL_OUT_OF_MEMORY : Nat := 0x0505
/-- The OpenGL error code `GL_INVALID_FRAMEBUFFER_OPERATION` (0x0506). -/
def GL_INVALID_FRAMEBUFFER_OPERATION : Nat := 0x0506

/-- The function `checkGlError`, as a function of the code `err` that
`glGetError()` returns: the returned flag and the messages passed to `error`. -/
def checkGlError (err : Nat) : Bool × List String :=
  if err ≠ GL_NO_ERROR then
    if err = GL_OUT_OF_MEMORY then
      (true, ["Out of memory! Try lowering the voxel view distance."])
    else if err = GL_INVALID_ENUM then
      (false,
        ["GL_INVALID_ENUM - An unacceptable value is specified for an enumerated argument."])
    else if err = GL_INVALID_VALUE then
      (false, ["GL_INVALID_VALUE - A numeric argument is out of range."])
    else if err = GL_INVALID_OPERATION then
      (false, ["GL_INVALID_OPERATION - The specified operation is not allowed in the " ++
        "current state."])
    else if err = GL_INVALID_FRAMEBUFFER_OPERATION then
      (false, ["The command is trying to render to or read from the framebuffer while the " ++
        "currently bound framebuffer is not framebuffer complete."])
    else
      (false, ["OpenGL ERROR (" ++ toString err ++ ") "])
  else (false, [])

/-! ## The wireframe box -/

/-- The call `glDeleteBuffers(1, &id)`. -/
def Gpu.glDeleteBuffers (g : Gpu) (id : Nat) : Gpu := { g with deleted := g.deleted ++ [id] }

/-- The function `uploadMesh` for `glm::vec3` data (the second overload). -/
def uploadMeshVec3 (g : Gpu) (m : Mesh) (vertices : List Vec3) (numVertices : Nat)
    (indices : List Nat) (numIndices : Nat) : Mesh × Gpu :=
  let (vbo, g) := g.glGenBuffers
  let (ibo, g) := g.glGenBuffers
  let g := g.bindArrayBuffer vbo
  let g := g.arrayBufferData (.points (vertices.take numVertices))
  let g := g.bindElementArrayBuffer ibo
  let g := g.elementArrayBufferData (.indices (indices.take numIndices))
  ({ m with vboID := vbo, iboID := ibo }, g)

/-- The constant `numVertices` of `initializeWireframeBox`. -/
def initializeWireframeBox.numVertices : Nat := 8

/-- The constant `numIndices` of `initializeWireframeBox`. -/
def initializeWireframeBox.numIndices : Nat := 24

/-- The table `vertices` of `initializeWireframeBox`. -/
def initializeWireframeBox.vertices : List Vec3 :=
  [⟨0, 0, 0⟩, ⟨1, 0, 0⟩, ⟨1, 0, 1⟩, ⟨0, 0, 1⟩,
   ⟨0, 1, 0⟩, ⟨1, 1, 0⟩, ⟨1, 1, 1⟩, ⟨0, 1, 1⟩]

/-- The table `indices` of `initializeWireframeBox`. -/
def initializeWireframeBox.indices : List Nat :=
  [0, 1, 1, 2, 2, 3, 3, 0, 0, 4, 1, 5, 2, 6, 3, 7, 4, 5, 5, 6, 6, 7, 7, 4]

/-- The function `initializeWireframeBox`. -/
def initializeWireframeBox (st : RenderState) : RenderState :=
  let uploaded := uploadMeshVec3 st.gpu ⟨0, 0, 0⟩ initializeWireframeBox.vertices
    initializeWireframeBox.numVertices initializeWireframeBox.indices
    initializeWireframeBox.numIndices
  { st with
    _mesh := .live { uploaded.1 with numIndices := initializeWireframeBox.numIndices }
    gpu := uploaded.2 }

/-- The function `releaseWireframeBox`. The pointer `_mesh` is not reset after
`delete`: a call that finds it pointing to a destroyed object reads that object. -/
def releaseWireframeBox (st : RenderState) : Option RenderState :=
  match st._mesh with
  | .null => some st
  | .live m =>
    some { st with
      gpu := (st.gpu.glDeleteBuffers m.vboID).glDeleteBuffers m.iboID
      _mesh := .freed m }
  | .freed _ => none

/-! ## Sequences of requests to the reference cursor -/

/-- A request to the reference cursor: a draw at an integer position with or
without a brush, or a change of the reference colour. -/
inductive Request where
  | draw (x y z : Int) (brush : Option Brush)
  | color (r g b a : ℚ)

/-- The effect of one request. -/
def step (cubeVertices cubeNormals : Nat → ℚ) (st : RenderState) : Request → Option RenderState
  | .draw x y z brush => drawReferenceVoxel cubeVertices cubeNormals st (Vec3.ofInts x y z) brush
  | .color r g b a => some (changeReferenceColor st r g b a)

/-- The effect of a sequence of requests, in order. -/
def run (cubeVertices cubeNormals : Nat → ℚ) : RenderState → List Request → Option RenderState
  | st, [] => some st
  | st, r :: rs =>
    match step cubeVertices cubeNormals st r with
    | none => none
    | some st1 => run cubeVertices cubeNormals st1 rs

/-- The request does not move the cursor in Simple mode: it is not a draw
without brush at a position whose truncated coordinates differ from the cached ones. -/
def Request.keepsBrushCache (st : RenderState) : Request → Bool
  | .draw x y z none => !positionChanged (Vec3.ofInts x y z) st._lastPosition
  | _ => true

/-- No request of the sequence, made in its turn, moves the cursor in Simple mode. -/
def keepsBrushCache (cubeVertices cubeNormals : Nat → ℚ) : RenderState → List Request → Bool
  | _, [] => true
  | st, r :: rs =>
    r.keepsBrushCache st &&
      (match step cubeVertices cubeNormals st r with
       | none => true
       | some st1 => keepsBrushCache cubeVertices cubeNormals st1 rs)

/-- The undirected edge joining vertices `i` and `j`. -/
def edgeOf (i j : Nat) : Nat × Nat := (min i j, max i j)

/-- The consecutive pairs of an index list, as undirected edges. -/
def edgesOf : List Nat → List (Nat × Nat)
  | i :: j :: rest => edgeOf i j :: edgesOf rest
  | _ => []

/-- The number of coordinates in which two points differ. -/
def Vec3.differences (a d : Vec3) : Nat :=
  (if a.x = d.x then 0 else 1) + (if a.y = d.y then 0 else 1) + (if a.z = d.z then 0 else 1)

/-! ## Vocabulary of the properties -/

/-- The cell `(x, y, z)` lies in the grid. -/
def Brush.inGrid (b : Brush) (x y z : Int) : Bool :=
  decide (0 ≤ x ∧ x < b.width ∧ 0 ≤ y ∧ y < b.height ∧ 0 ≤ z ∧ z < b.length)

/-- The cell `(x, y, z)` lies in the grid and its voxel has a non-zero type. -/
def Brush.occupied (b : Brush) (x y z : Int) : Bool :=
  b.inGrid x y z &&
    (match b.voxelType (b.cellIndex x y z) with
     | some t => t != 0
     | none => false)

/-- The four vertices one `addFace` call appends: the template quad starting at
`c.index`, translated by the cell position. -/
def faceQuad (base : BlockMesh) (c : FaceCall) : List BlockVertex :=
  (List.range VERTS_PER_QUAD).map fun i =>
    (base.vert (c.index + i)).translate (Vec3.ofInts c.x c.y c.z)

/-- The call is made for cell `(x, y, z)`. -/
def FaceCall.atCell (x y z : Int) (c : FaceCall) : Bool :=
  decide (c.x = x ∧ c.y = y ∧ c.z = z)

/-- The translation applied to the brush vertices on a move. -/
def moveDelta (p last : Vec3) : Vec3 := ⟨p.x - last.x, p.y - last.y, p.z - last.z⟩

/-- The vertex `v` with its colour replaced. -/
def BlockVertex.withColor (v : BlockVertex) (c : Rgba) : BlockVertex := { v with color := c }

/-- The brush cache is consistent with the mesh `mesh`: the reference voxel is
initialised, the cached position is integer-valued, and the brush vertex list
is `mesh` with every position shifted by the cached position. -/
def CacheConsistent (mesh : List BlockVertex) (st : RenderState) : Prop :=
  st._referenceCubeMesh ≠ none ∧
  (∃ x y z : Int, st._lastPosition = Vec3.ofInts x y z) ∧
  st._brushVerts = mesh.map (fun v => v.translate st._lastPosition)

instance (b : Brush) : Decidable b.WellFormed := by
  unfold Brush.WellFormed
  infer_instance

/-! ## Lemmas on the loops -/

theorem collect_cons (body : Int → Option (List FaceCall)) (i : Int) (l : List Int) :
    collect body (i :: l) =
      match body i, collect body l with
      | some a, some r => some (a ++ r)
      | _, _ => none := rfl

theorem collect_eq_some_cons {body : Int → Option (List FaceCall)} {i : Int} {l : List Int}
    {r : List FaceCall} (h : collect body (i :: l) = some r) :
    ∃ a r0, body i = some a ∧ collect body l = some r0 ∧ r = a ++ r0 := by
  rw [collect_cons] at h
  cases ha : body i with
  | none => simp [ha] at h
  | some a =>
    cases hr : collect body l with
    | none => simp [ha, hr] at h
    | some r0 =>
      simp only [ha, hr, Option.some.injEq] at h
      exact ⟨a, r0, rfl, rfl, h.symm⟩

theorem collect_all_nil {body : Int → Option (List FaceCall)} :
    ∀ (l : List Int), (∀ i ∈ l, body i = some []) → collect body l = some []
  | [], _ => rfl
  | i :: l, h => by
    rw [collect_cons, h i (List.mem_cons_self _ _),
      collect_all_nil l (fun j hj => h j (List.mem_cons_of_mem _ hj))]
    rfl

theorem collect_mem {body : Int → Option (List FaceCall)} :
    ∀ (l : List Int) (r : List FaceCall), collect body l = some r → ∀ c ∈ r,
      ∃ i ∈ l, ∃ cs, body i = some cs ∧ c ∈ cs
  | [], r, h, c, hc => by
    simp only [collect, Option.some.injEq] at h
    subst h
    simp at hc
  | i :: l, r, h, c, hc => by
    obtain ⟨a, r0, ha, hr0, rfl⟩ := collect_eq_some_cons h
    rcases List.mem_append.mp hc with hc | hc
    · exact ⟨i, List.mem_cons_self _ _, a, ha, hc⟩
    · obtain ⟨j, hj, cs, hcs, hmem⟩ := collect_mem l r0 hr0 c hc
      exact ⟨j, List.mem_cons_of_mem _ hj, cs, hcs, hmem⟩

theorem collect_filter_other {body : Int → Option (List FaceCall)} {p : FaceCall → Bool} :
    ∀ (l : List Int) (r : List FaceCall), collect body l = some r →
      (∀ i ∈ l, ∀ cs, body i = some cs → cs.filter p = []) → r.filter p = []
  | [], r, h, _ => by
    simp only [collect, Option.some.injEq] at h
    subst h
    rfl
  | i :: l, r, h, hp => by
    obtain ⟨a, r0, ha, hr0, rfl⟩ := collect_eq_some_cons h
    rw [List.filter_append, hp i (List.mem_cons_self _ _) a ha,
      collect_filter_other l r0 hr0 (fun j hj => hp j (List.mem_cons_of_mem _ hj))]
    rfl

theorem collect_filter {body : Int → Option (List FaceCall)} {p : FaceCall → Bool} {k : Int} :
    ∀ (l : List Int) (r : List FaceCall), collect body l = some r → l.Nodup → k ∈ l →
      (∀ i ∈ l, i ≠ k → ∀ cs, body i = some cs → cs.filter p = []) →
      ∃ cs0, body k = some cs0 ∧ r.filter p = cs0.filter p
  | [], _, _, _, hmem, _ => by simp at hmem
  | i :: l, r, h, hnd, hmem, hp => by
    obtain ⟨a, r0, ha, hr0, rfl⟩ := collect_eq_some_cons h
    rw [List.nodup_cons] at hnd
    by_cases hi : i = k
    · subst hi
      refine ⟨a, ha, ?_⟩
      rw [List.filter_append, collect_filter_other l r0 hr0, List.append_nil]
      intro j hj cs hcs
      exact hp j (List.mem_cons_of_mem _ hj) (fun e => hnd.1 (e ▸ hj)) cs hcs
    · have hmem0 : k ∈ l := by
        rcases List.mem_cons.mp hmem with e | e
        · exact absurd e.symm hi
        · exact e
      obtain ⟨cs0, hcs0, hf⟩ := collect_filter l r0 hr0 hnd.2 hmem0
        (fun j hj hne cs hcs => hp j (List.mem_cons_of_mem _ hj) hne cs hcs)
      refine ⟨cs0, hcs0, ?_⟩
      rw [List.filter_append, hp i (List.mem_cons_self _ _) hi a ha, hf]
      rfl

theorem mem_upTo {n i : Int} : i ∈ upTo n ↔ 0 ≤ i ∧ i < n := by
  unfold upTo
  constructor
  · intro h
    obtain ⟨k, hk, rfl⟩ := List.mem_map.mp h
    have hlt := List.mem_range.mp hk
    simp only [Int.ofNat_eq_coe]
    omega
  · rintro ⟨h0, h1⟩
    refine List.mem_map.mpr ⟨i.toNat, List.mem_range.mpr ?_, ?_⟩
    · omega
    · simp [Int.toNat_of_nonneg h0]

theorem upTo_nodup (n : Int) : (upTo n).Nodup := by
  unfold upTo
  exact (List.nodup_range _).map (fun a b h => by simpa using h)

/-! ## Lemmas on one cell -/

theorem faceUnless_eq_some {b : Brush} {inside : Bool} {n : Int} {f : FaceCall}
    {cs : List FaceCall} (h : faceUnless b inside n f = some cs) :
    cs = if inside = true ∧ b.voxelType n ≠ some 0 then [] else [f] := by
  unfold faceUnless at h
  cases inside with
  | false => simpa using h.symm
  | true =>
    cases hv : b.voxelType n with
    | none => simp [hv] at h
    | some t =>
      simp only [hv, if_true, Option.some.injEq] at h
      subst h
      by_cases ht : t = 0 <;> simp [ht]

/-- The shape of a completed cell body: the voxel was read; an unoccupied cell
makes no call, an occupied one the calls of its six face tests in order. -/
theorem meshCell_eq_some {b : Brush} {x y z : Int} {cs : List FaceCall}
    (h : meshCell b x y z = some cs) :
    ∃ t, b.voxelType (b.cellIndex x y z) = some t ∧
      ((t = 0 ∧ cs = []) ∨
       (t ≠ 0 ∧ ∃ front right top left bottom back,
          faceUnless b (z < b.length - 1) (b.cellIndex x y z + (b.height + b.width))
            ⟨FRONT_INDEX, x, y, z⟩ = some front ∧
          faceUnless b (x < b.width - 1) (b.cellIndex x y z + 1)
            ⟨RIGHT_INDEX, x, y, z⟩ = some right ∧
          faceUnless b (y < b.height - 1) (b.cellIndex x y z + b.width)
            ⟨TOP_INDEX, x, y, z⟩ = some top ∧
          faceUnless b (x > 0) (b.cellIndex x y z - 1) ⟨LEFT_INDEX, x, y, z⟩ = some left ∧
          faceUnless b (y > 0) (b.cellIndex x y z - b.width)
            ⟨BOTTOM_INDEX, x, y, z⟩ = some bottom ∧
          faceUnless b (z > 0) (b.cellIndex x y z - (b.width * b.height))
            ⟨BACK_INDEX, x, y, z⟩ = some back ∧
          cs = front ++ right ++ top ++ left ++ bottom ++ back)) := by
  unfold meshCell at h
  simp only [] at h
  unfold Brush.cellIndex
  cases hv : b.voxelType (z * b.width * b.height + y * b.width + x) with
  | none => simp [hv] at h
  | some t =>
    refine ⟨t, rfl, ?_⟩
    simp only [hv] at h
    by_cases ht : t = 0
    · left
      simp only [ht, ne_eq, not_true_eq_false, if_false, Option.some.injEq] at h
      exact ⟨ht, h.symm⟩
    · right
      simp only [ne_eq, ht, not_false_eq_true, if_true] at h
      refine ⟨ht, ?_⟩
      split at h
      · rename_i front right top left bottom back h1 h2 h3 h4 h5 h6
        simp only [Option.some.injEq] at h
        exact ⟨front, right, top, left, bottom, back, h1, h2, h3, h4, h5, h6, h.symm⟩
      · exact absurd h (by simp)

theorem meshCell_at {b : Brush} {x y z : Int} {cs : List FaceCall}
    (h : meshCell b x y z = some cs) : ∀ c ∈ cs, c.x = x ∧ c.y = y ∧ c.z = z := by
  obtain ⟨t, -, h0 | ⟨-, f1, f2, f3, f4, f5, f6, h1, h2, h3, h4, h5, h6, rfl⟩⟩ :=
    meshCell_eq_some h
  · rw [h0.2]
    intro c hc
    simp at hc
  · have e1 := faceUnless_eq_some h1
    have e2 := faceUnless_eq_some h2
    have e3 := faceUnless_eq_some h3
    have e4 := faceUnless_eq_some h4
    have e5 := faceUnless_eq_some h5
    have e6 := faceUnless_eq_some h6
    intro c hc
    simp only [List.mem_append] at hc
    rcases hc with ((((hc | hc) | hc) | hc) | hc) | hc
    · rw [e1] at hc; split at hc <;> simp at hc; subst hc; exact ⟨rfl, rfl, rfl⟩
    · rw [e2] at hc; split at hc <;> simp at hc; subst hc; exact ⟨rfl, rfl, rfl⟩
    · rw [e3] at hc; split at hc <;> simp at hc; subst hc; exact ⟨rfl, rfl, rfl⟩
    · rw [e4] at hc; split at hc <;> simp at hc; subst hc; exact ⟨rfl, rfl, rfl⟩
    · rw [e5] at hc; split at hc <;> simp at hc; subst hc; exact ⟨rfl, rfl, rfl⟩
    · rw [e6] at hc; split at hc <;> simp at hc; subst hc; exact ⟨rfl, rfl, rfl⟩

theorem meshRow_at {b : Brush} {y z : Int} {r : List FaceCall}
    (h : meshRow b y z = some r) : ∀ c ∈ r, (0 ≤ c.x ∧ c.x < b.width) ∧ c.y = y ∧ c.z = z := by
  intro c hc
  obtain ⟨x, hx, cs, hcs, hmem⟩ := collect_mem _ _ h c hc
  obtain ⟨e1, e2, e3⟩ := meshCell_at hcs c hmem
  exact ⟨e1 ▸ mem_upTo.mp hx, e2, e3⟩

theorem meshSlab_at {b : Brush} {z : Int} {r : List FaceCall}
    (h : meshSlab b z = some r) :
    ∀ c ∈ r, (0 ≤ c.x ∧ c.x < b.width) ∧ (0 ≤ c.y ∧ c.y < b.height) ∧ c.z = z := by
  intro c hc
  obtain ⟨y, hy, cs, hcs, hmem⟩ := collect_mem _ _ h c hc
  obtain ⟨e1, e2, e3⟩ := meshRow_at hcs c hmem
  exact ⟨e1, e2 ▸ mem_upTo.mp hy, e3⟩

theorem meshCalls_at {b : Brush} {r : List FaceCall} (h : meshCalls b = some r) :
    ∀ c ∈ r, b.inGrid c.x c.y c.z = true := by
  intro c hc
  obtain ⟨z, hz, cs, hcs, hmem⟩ := collect_mem _ _ h c hc
  obtain ⟨e1, e2, e3⟩ := meshSlab_at hcs c hmem
  have hz0 := e3 ▸ mem_upTo.mp hz
  simp only [Brush.inGrid, decide_eq_true_eq]
  exact ⟨e1.1, e1.2, e2.1, e2.2, hz0.1, hz0.2⟩

/-- The calls a completed run makes for one cell of the grid are the calls of
that cell's loop body. -/
theorem meshCalls_filter_cell {b : Brush} {calls : List FaceCall} {x y z : Int}
    (h : meshCalls b = some calls) (hc : b.inGrid x y z = true) :
    ∃ cs, meshCell b x y z = some cs ∧ calls.filter (FaceCall.atCell x y z) = cs := by
  simp only [Brush.inGrid, decide_eq_true_eq] at hc
  obtain ⟨hx0, hx1, hy0, hy1, hz0, hz1⟩ := hc
  obtain ⟨sz, hsz, e1⟩ := collect_filter (p := FaceCall.atCell x y z) (k := z) _ _ h
    (upTo_nodup _) (mem_upTo.mpr ⟨hz0, hz1⟩) (by
      intro i _ hne cs hcs
      rw [List.filter_eq_nil_iff]
      intro c hcm
      have := (meshSlab_at hcs c hcm).2.2
      simp only [FaceCall.atCell, decide_eq_true_eq, not_and]
      intro _ _ e
      exact hne (this ▸ e))
  obtain ⟨sy, hsy, e2⟩ := collect_filter (p := FaceCall.atCell x y z) (k := y) _ _ hsz
    (upTo_nodup _) (mem_upTo.mpr ⟨hy0, hy1⟩) (by
      intro i _ hne cs hcs
      rw [List.filter_eq_nil_iff]
      intro c hcm
      have := (meshRow_at hcs c hcm).2.1
      simp only [FaceCall.atCell, decide_eq_true_eq, not_and]
      intro _ e
      exact absurd (this ▸ e) hne)
  obtain ⟨sx, hsx, e3⟩ := collect_filter (p := FaceCall.atCell x y z) (k := x) _ _ hsy
    (upTo_nodup _) (mem_upTo.mpr ⟨hx0, hx1⟩) (by
      intro i _ hne cs hcs
      rw [List.filter_eq_nil_iff]
      intro c hcm
      have := (meshCell_at hcs c hcm).1
      simp only [FaceCall.atCell, decide_eq_true_eq, not_and]
      intro e
      exact absurd (this ▸ e) hne)
  refine ⟨sx, hsx, ?_⟩
  rw [e1, e2, e3, List.filter_eq_self]
  intro c hcm
  simpa [FaceCall.atCell] using meshCell_at hsx c hcm

theorem count_part (f g : FaceCall) (c : Prop) [Decidable c] :
    List.count f (if c then [] else [g]) = if c then 0 else if g = f then 1 else 0 := by
  by_cases hc : c
  · simp [hc]
  · by_cases hg : g = f
    · simp [hc, hg]
    · simp [hc, hg, List.count_cons]

theorem faceUnless_neighbour {b : Brush} {inside : Bool} {n : Int} {f : FaceCall}
    {part : List FaceCall} (h : faceUnless b inside n f = some part) (x y z : Int)
    (hidx : b.cellIndex x y z = n) (hin : b.inGrid x y z = inside) :
    part = if b.occupied x y z = true then [] else [f] := by
  unfold faceUnless at h
  unfold Brush.occupied
  rw [hidx, hin]
  cases inside with
  | false => simpa using h.symm
  | true =>
    cases hv : b.voxelType n with
    | none => simp [hv] at h
    | some t =>
      simp only [hv, if_true, Option.some.injEq] at h
      subst h
      by_cases ht : t = 0 <;> simp [ht]

theorem inGrid_bounds {b : Brush} {x y z : Int} (h : b.inGrid x y z = true) :
    0 ≤ x ∧ x < b.width ∧ 0 ≤ y ∧ y < b.height ∧ 0 ≤ z ∧ z < b.length := by
  simpa [Brush.inGrid] using h

/-- The five face tests of an occupied cell other than the front one: each makes
its call exactly when the neighbouring cell is not an occupied cell of the grid. -/
theorem meshCell_five_faces {b : Brush} {x y z : Int} {cs : List FaceCall}
    (h : meshCell b x y z = some cs) (hin : b.inGrid x y z = true)
    (hocc : b.occupied x y z = true) :
    cs.count ⟨RIGHT_INDEX, x, y, z⟩ = (if b.occupied (x + 1) y z = true then 0 else 1) ∧
    cs.count ⟨TOP_INDEX, x, y, z⟩ = (if b.occupied x (y + 1) z = true then 0 else 1) ∧
    cs.count ⟨LEFT_INDEX, x, y, z⟩ = (if b.occupied (x - 1) y z = true then 0 else 1) ∧
    cs.count ⟨BOTTOM_INDEX, x, y, z⟩ = (if b.occupied x (y - 1) z = true then 0 else 1) ∧
    cs.count ⟨BACK_INDEX, x, y, z⟩ = (if b.occupied x y (z - 1) = true then 0 else 1) := by
  obtain ⟨hx0, hx1, hy0, hy1, hz0, hz1⟩ := inGrid_bounds hin
  obtain ⟨t, ht, h0 | ⟨-, f1, f2, f3, f4, f5, f6, h1, h2, h3, h4, h5, h6, rfl⟩⟩ :=
    meshCell_eq_some h
  · simp [Brush.occupied, ht, h0.1] at hocc
  · have e1 := faceUnless_eq_some h1
    have e2 := faceUnless_neighbour h2 (x + 1) y z (by unfold Brush.cellIndex; ring)
      (by simp only [Brush.inGrid, decide_eq_decide]; omega)
    have e3 := faceUnless_neighbour h3 x (y + 1) z (by unfold Brush.cellIndex; ring)
      (by simp only [Brush.inGrid, decide_eq_decide]; omega)
    have e4 := faceUnless_neighbour h4 (x - 1) y z (by unfold Brush.cellIndex; ring)
      (by simp only [Brush.inGrid, decide_eq_decide]; omega)
    have e5 := faceUnless_neighbour h5 x (y - 1) z (by unfold Brush.cellIndex; ring)
      (by simp only [Brush.inGrid, decide_eq_decide]; omega)
    have e6 := faceUnless_neighbour h6 x y (z - 1) (by unfold Brush.cellIndex; ring)
      (by simp only [Brush.inGrid, decide_eq_decide]; omega)
    rw [e1, e2, e3, e4, e5, e6]
    simp only [List.count_append]
    refine ⟨?_, ?_, ?_, ?_, ?_⟩ <;>
      simp [count_part, FRONT_INDEX, RIGHT_INDEX, TOP_INDEX, LEFT_INDEX, BOTTOM_INDEX,
        BACK_INDEX]

/-! ## Lemmas on the vertex and index lists -/

theorem foldl_addFace (base : BlockMesh) :
    ∀ (calls : List FaceCall) (acc : List BlockVertex),
      calls.foldl (addFace base) acc = acc ++ calls.flatMap (faceQuad base)
  | [], acc => by simp
  | c :: cs, acc => by
    rw [List.foldl_cons, foldl_addFace base cs, List.flatMap_cons, ← List.append_assoc]
    rfl

theorem brushVertsOf_eq (base : BlockMesh) (calls : List FaceCall) :
    brushVertsOf base calls = calls.flatMap (faceQuad base) := by
  unfold brushVertsOf
  rw [foldl_addFace]
  rfl

theorem length_faceQuad (base : BlockMesh) (c : FaceCall) : (faceQuad base c).length = 4 := by
  simp [faceQuad, VERTS_PER_QUAD]

theorem length_brushVertsOf (base : BlockMesh) (calls : List FaceCall) :
    (brushVertsOf base calls).length = 4 * calls.length := by
  rw [brushVertsOf_eq]
  induction calls with
  | nil => rfl
  | cons c cs ih =>
    rw [List.flatMap_cons, List.length_append, ih, length_faceQuad, List.length_cons]
    ring

theorem length_quadIndices (n : Nat) : (quadIndices n).length = n * 6 := by
  unfold quadIndices
  induction n with
  | zero => rfl
  | succ k ih =>
    rw [List.range_succ, List.flatMap_append, List.length_append, ih]
    simp [quadTemplate]
    ring

theorem quadIndices_succ (n : Nat) :
    quadIndices (n + 1) = quadIndices n ++ quadTemplate (4 * n) := by
  simp [quadIndices, List.range_succ]

theorem set_six (p r : List Nat) (v0 v1 v2 v3 v4 v5 : Nat) (hr : 6 ≤ r.length) :
    ((((((p ++ r).set p.length v0).set (p.length + 1) v1).set (p.length + 2) v2).set
      (p.length + 3) v3).set (p.length + 4) v4).set (p.length + 5) v5 =
      p ++ [v0, v1, v2, v3, v4, v5] ++ r.drop 6 := by
  match r, hr with
  | r0 :: r1 :: r2 :: r3 :: r4 :: r5 :: rest, _ =>
    simp

theorem indexLoop_eq (n : Nat) :
    ∀ (fuel k : Nat) (a : List Nat), k ≤ n → n - k ≤ fuel → a.length = n * 6 →
      a.take (k * 6) = quadIndices k →
      indexLoop (n * 6) fuel (k * 6) (4 * k) a = quadIndices n := by
  intro fuel
  induction fuel with
  | zero =>
    intro k a hk hfuel hlen htake
    have hkn : k = n := by omega
    subst hkn
    rw [← htake, ← hlen, List.take_length]
    rfl
  | succ fuel ih =>
    intro k a hk hfuel hlen htake
    unfold indexLoop
    by_cases hlt : k * 6 < n * 6
    · rw [if_pos hlt]
      have hk1 : k + 1 ≤ n := by omega
      have hsplit : a = a.take (k * 6) ++ a.drop (k * 6) := (List.take_append_drop _ _).symm
      have hplen : (a.take (k * 6)).length = k * 6 := by
        rw [List.length_take]
        omega
      have hrlen : 6 ≤ (a.drop (k * 6)).length := by
        rw [List.length_drop]
        omega
      have hset := set_six (a.take (k * 6)) (a.drop (k * 6)) (4 * k) (4 * k + 1) (4 * k + 2)
        (4 * k + 2) (4 * k + 3) (4 * k) hrlen
      rw [← hsplit, hplen] at hset
      rw [hset]
      have h46 : (k + 1) * 6 = k * 6 + 6 := by ring
      have h44 : 4 * (k + 1) = 4 * k + 4 := by ring
      rw [← h46, ← h44]
      apply ih (k + 1) _ hk1 (by omega)
      · simp only [List.length_append, hplen, List.length_drop, List.length_cons,
          List.length_nil]
        omega
      · rw [List.take_append_of_le_length (by
          simp only [List.length_append, hplen, List.length_cons, List.length_nil]
          omega)]
        rw [List.take_of_length_le (by
          simp only [List.length_append, hplen, List.length_cons, List.length_nil]
          omega)]
        rw [htake, quadIndices_succ]
        rfl
    · rw [if_neg hlt]
      have hkn : k = n := by omega
      subst hkn
      rw [← htake, ← hlen, List.take_length]

/-- The index loop over a fresh array of `n*6` elements produces the closed form. -/
theorem fillIndices_eq (n : Nat) : fillIndices (n * 6) = quadIndices n := by
  unfold fillIndices
  have h := indexLoop_eq n (n * 6) 0 (List.replicate (n * 6) 0) (Nat.zero_le _) (by omega)
    (by simp) (by simp [quadIndices])
  simpa using h

theorem meshBrush_eq_some {st st1 : RenderState} {b : Brush} (h : meshBrush st b = some st1) :
    ∃ calls, meshCalls b = some calls ∧
      st1 = { st with
        _brushVerts := brushVertsOf st._voxBaseVerts calls
        _brushIndices := quadIndices ((brushVertsOf st._voxBaseVerts calls).length / 4)
        _lastPosition := ⟨0, 0, 0⟩ } := by
  unfold meshBrush at h
  cases hc : meshCalls b with
  | none => simp [hc] at h
  | some calls =>
    simp only [hc, Option.some.injEq, fillIndices_eq] at h
    exact ⟨calls, rfl, h.symm⟩

/-! ## Lemmas on reads inside the grid -/

theorem collect_single {body : Int → Option (List FaceCall)} {i0 : Int} {cs : List FaceCall} :
    ∀ (l : List Int), l.Nodup → i0 ∈ l → body i0 = some cs →
      (∀ i ∈ l, i ≠ i0 → body i = some []) → collect body l = some cs
  | [], _, hmem, _, _ => by simp at hmem
  | i :: l, hnd, hmem, h0, hrest => by
    rw [List.nodup_cons] at hnd
    rw [collect_cons]
    by_cases hi : i = i0
    · subst hi
      rw [h0, collect_all_nil l (fun j hj =>
        hrest j (List.mem_cons_of_mem _ hj) (fun e => hnd.1 (e ▸ hj)))]
      simp
    · have hmem0 : i0 ∈ l := by
        rcases List.mem_cons.mp hmem with e | e
        · exact absurd e.symm hi
        · exact e
      rw [hrest i (List.mem_cons_self _ _) hi,
        collect_single l hnd.2 hmem0 h0 (fun j hj => hrest j (List.mem_cons_of_mem _ hj))]
      simp

theorem cellIndex_range {b : Brush} {x y z : Int} (h : b.inGrid x y z = true) :
    0 ≤ b.cellIndex x y z ∧ b.cellIndex x y z < b.width * b.height * b.length := by
  obtain ⟨hx0, hx1, hy0, hy1, hz0, hz1⟩ := inGrid_bounds h
  unfold Brush.cellIndex
  have hw : 0 ≤ b.width := by omega
  have hh : 0 ≤ b.height := by omega
  have hwh : 0 ≤ b.width * b.height := mul_nonneg hw hh
  have h1 : y * b.width ≤ (b.height - 1) * b.width :=
    mul_le_mul_of_nonneg_right (by omega) hw
  have h2 : z * (b.width * b.height) ≤ (b.length - 1) * (b.width * b.height) :=
    mul_le_mul_of_nonneg_right (by omega) hwh
  have h3 : 0 ≤ y * b.width := mul_nonneg hy0 hw
  have h4 : 0 ≤ z * (b.width * b.height) := mul_nonneg hz0 hwh
  constructor
  · nlinarith
  · nlinarith

theorem voxelType_in_range {b : Brush} {i : Int} (h0 : 0 ≤ i) (h1 : i < b.voxels.length) :
    ∃ t, b.voxelType i = some t ∧ b.voxels[i.toNat]? = some t := by
  have hlt : i.toNat < b.voxels.length := by omega
  refine ⟨b.voxels[i.toNat], ?_, ?_⟩
  · unfold Brush.voxelType
    rw [if_pos h0]
    exact List.getElem?_eq_getElem hlt
  · exact List.getElem?_eq_getElem hlt

theorem meshCell_unoccupied {b : Brush} {x y z : Int}
    (h : b.voxelType (b.cellIndex x y z) = some 0) : meshCell b x y z = some [] := by
  unfold Brush.cellIndex at h
  unfold meshCell
  simp [h]

/-! ## Lemmas on completion and on the number of calls -/

theorem collect_completes {body : Int → Option (List FaceCall)} :
    ∀ (l : List Int), (∀ i ∈ l, ∃ cs, body i = some cs) → ∃ r, collect body l = some r
  | [], _ => ⟨[], rfl⟩
  | i :: l, h => by
    obtain ⟨a, ha⟩ := h i (List.mem_cons_self _ _)
    obtain ⟨r, hr⟩ := collect_completes l (fun j hj => h j (List.mem_cons_of_mem _ hj))
    exact ⟨a ++ r, by rw [collect_cons, ha, hr]⟩

theorem collect_none {body : Int → Option (List FaceCall)} {k : Int} :
    ∀ (l : List Int), k ∈ l → body k = none → collect body l = none
  | [], hk, _ => by simp at hk
  | i :: l, hk, h => by
    rw [collect_cons]
    rcases List.mem_cons.mp hk with e | e
    · subst e
      rw [h]
    · rw [collect_none l e h]
      cases body i <;> rfl

theorem collect_length {body : Int → Option (List FaceCall)} {f : Int → Int} :
    ∀ (l : List Int) (r : List FaceCall), collect body l = some r →
      (∀ i ∈ l, ∀ cs, body i = some cs → (cs.length : Int) = f i) →
      (r.length : Int) = (l.map f).sum
  | [], r, h, _ => by
    simp only [collect, Option.some.injEq] at h
    subst h
    rfl
  | i :: l, r, h, hf => by
    obtain ⟨a, r0, ha, hr0, rfl⟩ := collect_eq_some_cons h
    rw [List.length_append, List.map_cons, List.sum_cons, Nat.cast_add,
      hf i (List.mem_cons_self _ _) a ha,
      collect_length l r0 hr0 (fun j hj => hf j (List.mem_cons_of_mem _ hj))]

theorem sum_map_indicator {k : Int} (c : Int) :
    ∀ (l : List Int), l.Nodup → k ∈ l →
      (l.map (fun i => if i = k then c else 0)).sum = c
  | [], _, hk => by simp at hk
  | i :: l, hnd, hk => by
    rw [List.nodup_cons] at hnd
    rw [List.map_cons, List.sum_cons]
    by_cases hi : i = k
    · subst hi
      have hz : (l.map (fun j => if j = i then c else 0)).sum = 0 := by
        apply List.sum_eq_zero
        intro v hv
        obtain ⟨j, hj, rfl⟩ := List.mem_map.mp hv
        have : j ≠ i := fun e => hnd.1 (e ▸ hj)
        simp [this]
      rw [hz]
      simp
    · have hk0 : k ∈ l := by
        rcases List.mem_cons.mp hk with e | e
        · exact absurd e.symm hi
        · exact e
      rw [sum_map_indicator c l hnd.2 hk0]
      simp [hi]

theorem length_upTo {n : Int} (h : 0 ≤ n) : ((upTo n).length : Int) = n := by
  simp [upTo, Int.toNat_of_nonneg h]

/-- The sum, over a loop of `n` iterations, of a constant plus a term present
in the first and in the last iteration. -/
theorem sum_upTo_edges (n : Int) (hn : 1 ≤ n) (a c : Int) :
    ((upTo n).map (fun i =>
      a + c * ((if i = n - 1 then 1 else 0) + (if i = 0 then 1 else 0)))).sum =
      n * a + 2 * c := by
  have h0 : (fun i : Int => a + c * ((if i = n - 1 then 1 else 0) + (if i = 0 then 1 else 0))) =
      fun i => a + ((if i = n - 1 then c else 0) + (if i = 0 then c else 0)) := by
    funext i
    split_ifs <;> ring
  have h1 : ((upTo n).map (fun _ => a)).sum = n * a := by
    rw [List.map_const', List.sum_replicate, nsmul_eq_mul, length_upTo (by omega)]
  have h2 := sum_map_indicator (k := n - 1) c (upTo n) (upTo_nodup n)
    (mem_upTo.mpr ⟨by omega, by omega⟩)
  have h3 := sum_map_indicator (k := 0) c (upTo n) (upTo_nodup n)
    (mem_upTo.mpr ⟨le_refl 0, by omega⟩)
  rw [h0, List.sum_map_add, List.sum_map_add, h1, h2, h3]
  ring

theorem ite_last {z n : Int} (h : z < n) :
    (if z < n - 1 then (0 : Int) else 1) = if z = n - 1 then 1 else 0 := by
  split_ifs <;> omega

theorem ite_first {z : Int} (h : 0 ≤ z) :
    (if z > 0 then (0 : Int) else 1) = if z = 0 then 1 else 0 := by
  split_ifs <;> omega

theorem voxelType_mem {b : Brush} {i : Int} {t : Nat} (h : b.voxelType i = some t) :
    t ∈ b.voxels := by
  unfold Brush.voxelType at h
  split at h
  · exact List.getElem?_mem h
  · cases h

theorem faceUnless_full_length {b : Brush} {inside : Bool} {n : Int} {f : FaceCall}
    {part : List FaceCall} (hfull : ∀ t ∈ b.voxels, t ≠ 0)
    (h : faceUnless b inside n f = some part) :
    (part.length : Int) = if inside = true then 0 else 1 := by
  unfold faceUnless at h
  cases inside with
  | false =>
    simp only [Bool.false_eq_true, if_false, Option.some.injEq] at h
    subst h
    simp
  | true =>
    cases hv : b.voxelType n with
    | none => simp [hv] at h
    | some t =>
      simp only [hv, if_true, Option.some.injEq] at h
      subst h
      simp [hfull t (voxelType_mem hv)]

/-- The number of calls a completed cell body makes in a fully occupied grid:
one for each side of the cell that lies on the boundary of the grid. -/
theorem meshCell_full_length {b : Brush} {x y z : Int} {cs : List FaceCall}
    (hfull : ∀ t ∈ b.voxels, t ≠ 0) (hin : b.inGrid x y z = true)
    (h : meshCell b x y z = some cs) :
    (cs.length : Int) =
      (((if z = b.length - 1 then 1 else 0) + (if z = 0 then 1 else 0)) +
        ((if y = b.height - 1 then 1 else 0) + (if y = 0 then 1 else 0))) +
        ((if x = b.width - 1 then 1 else 0) + (if x = 0 then 1 else 0)) := by
  obtain ⟨hx0, hx1, hy0, hy1, hz0, hz1⟩ := inGrid_bounds hin
  obtain ⟨t, ht, h0 | ⟨-, f1, f2, f3, f4, f5, f6, h1, h2, h3, h4, h5, h6, rfl⟩⟩ :=
    meshCell_eq_some h
  · exact absurd h0.1 (hfull t (voxelType_mem ht))
  · have e1 := faceUnless_full_length hfull h1
    have e2 := faceUnless_full_length hfull h2
    have e3 := faceUnless_full_length hfull h3
    have e4 := faceUnless_full_length hfull h4
    have e5 := faceUnless_full_length hfull h5
    have e6 := faceUnless_full_length hfull h6
    simp only [decide_eq_true_eq] at e1 e2 e3 e4 e5 e6
    rw [ite_last hz1] at e1
    rw [ite_last hx1] at e2
    rw [ite_last hy1] at e3
    rw [ite_first hx0] at e4
    rw [ite_first hy0] at e5
    rw [ite_first hz0] at e6
    simp only [List.length_append, Nat.cast_add, e1, e2, e3, e4, e5, e6]
    ring

theorem meshRow_full_length {b : Brush} {y z : Int} {r : List FaceCall}
    (hfull : ∀ t ∈ b.voxels, t ≠ 0) (hw : 1 ≤ b.width)
    (hy : 0 ≤ y ∧ y < b.height) (hz : 0 ≤ z ∧ z < b.length)
    (h : meshRow b y z = some r) :
    (r.length : Int) =
      b.width * (((if z = b.length - 1 then 1 else 0) + (if z = 0 then 1 else 0)) +
        ((if y = b.height - 1 then 1 else 0) + (if y = 0 then 1 else 0))) + 2 := by
  rw [collect_length (f := fun x =>
      (((if z = b.length - 1 then 1 else 0) + (if z = 0 then 1 else 0)) +
        ((if y = b.height - 1 then 1 else 0) + (if y = 0 then 1 else 0))) +
      1 * ((if x = b.width - 1 then 1 else 0) + (if x = 0 then 1 else 0))) _ _ h
    (fun x hx cs hcs => by
      have hin : b.inGrid x y z = true := by
        have := mem_upTo.mp hx
        simp only [Brush.inGrid, decide_eq_true_eq]
        omega
      rw [meshCell_full_length hfull hin hcs]
      ring)]
  rw [sum_upTo_edges b.width hw]
  ring

theorem meshSlab_full_length {b : Brush} {z : Int} {r : List FaceCall}
    (hfull : ∀ t ∈ b.voxels, t ≠ 0) (hw : 1 ≤ b.width) (hh : 1 ≤ b.height)
    (hz : 0 ≤ z ∧ z < b.length) (h : meshSlab b z = some r) :
    (r.length : Int) =
      (2 * b.height + 2 * b.width) +
        (b.width * b.height) * ((if z = b.length - 1 then 1 else 0) + (if z = 0 then 1 else 0)) := by
  rw [collect_length (f := fun y =>
      (b.width * ((if z = b.length - 1 then 1 else 0) + (if z = 0 then 1 else 0)) + 2) +
      b.width * ((if y = b.height - 1 then 1 else 0) + (if y = 0 then 1 else 0))) _ _ h
    (fun y hy cs hcs => by
      rw [meshRow_full_length hfull hw (mem_upTo.mp hy) hz hcs]
      ring)]
  rw [sum_upTo_edges b.height hh]
  ring

/-- The number of calls of a completed run on a fully occupied grid. -/
theorem meshCalls_full_length {b : Brush} {calls : List FaceCall}
    (hfull : ∀ t ∈ b.voxels, t ≠ 0) (hw : 1 ≤ b.width) (hh : 1 ≤ b.height)
    (hl : 1 ≤ b.length) (h : meshCalls b = some calls) :
    (calls.length : Int) =
      2 * (b.width * b.height + b.height * b.length + b.width * b.length) := by
  rw [collect_length (f := fun z => (2 * b.height + 2 * b.width) +
      (b.width * b.height) * ((if z = b.length - 1 then 1 else 0) + (if z = 0 then 1 else 0)))
    _ _ h
    (fun z hz cs hcs => meshSlab_full_length hfull hw hh (mem_upTo.mp hz) hcs)]
  rw [sum_upTo_edges b.length hl]
  ring

theorem voxelType_in_grid {b : Brush} {x y z : Int} (hwf : b.WellFormed)
    (hin : b.inGrid x y z = true) : ∃ t, b.voxelType (b.cellIndex x y z) = some t := by
  obtain ⟨h0, h1⟩ := cellIndex_range hin
  unfold Brush.WellFormed at hwf
  obtain ⟨t, ht, -⟩ := voxelType_in_range (b := b) h0 (by omega)
  exact ⟨t, ht⟩

theorem voxelType_beyond {b : Brush} {i : Int} (h : (b.voxels.length : Int) ≤ i) :
    b.voxelType i = none := by
  unfold Brush.voxelType
  split
  · exact List.getElem?_eq_none (by omega)
  · rfl

theorem faceUnless_defined (b : Brush) (inside : Bool) (n : Int) (f : FaceCall)
    (h : inside = true → ∃ t, b.voxelType n = some t) :
    ∃ part, faceUnless b inside n f = some part := by
  unfold faceUnless
  cases inside with
  | false => exact ⟨_, rfl⟩
  | true =>
    obtain ⟨t, ht⟩ := h rfl
    simp [ht]

/-- The five face tests other than the front one read inside the voxel array. -/
theorem five_tests_defined {b : Brush} {x y z : Int} (hwf : b.WellFormed)
    (hin : b.inGrid x y z = true) :
    (∃ right, faceUnless b (x < b.width - 1) (b.cellIndex x y z + 1)
      ⟨RIGHT_INDEX, x, y, z⟩ = some right) ∧
    (∃ top, faceUnless b (y < b.height - 1) (b.cellIndex x y z + b.width)
      ⟨TOP_INDEX, x, y, z⟩ = some top) ∧
    (∃ left, faceUnless b (x > 0) (b.cellIndex x y z - 1)
      ⟨LEFT_INDEX, x, y, z⟩ = some left) ∧
    (∃ bottom, faceUnless b (y > 0) (b.cellIndex x y z - b.width)
      ⟨BOTTOM_INDEX, x, y, z⟩ = some bottom) ∧
    (∃ back, faceUnless b (z > 0) (b.cellIndex x y z - (b.width * b.height))
      ⟨BACK_INDEX, x, y, z⟩ = some back) := by
  obtain ⟨hx0, hx1, hy0, hy1, hz0, hz1⟩ := inGrid_bounds hin
  have key : ∀ (x1 y1 z1 : Int) (n : Int), b.cellIndex x1 y1 z1 = n →
      (0 ≤ x1 ∧ x1 < b.width ∧ 0 ≤ y1 ∧ y1 < b.height ∧ 0 ≤ z1 ∧ z1 < b.length) →
      ∃ t, b.voxelType n = some t := by
    intro x1 y1 z1 n hn hb
    rw [← hn]
    exact voxelType_in_grid hwf (by simpa [Brush.inGrid] using hb)
  refine ⟨faceUnless_defined _ _ _ _ ?_, faceUnless_defined _ _ _ _ ?_,
    faceUnless_defined _ _ _ _ ?_, faceUnless_defined _ _ _ _ ?_,
    faceUnless_defined _ _ _ _ ?_⟩
  · intro h
    simp only [decide_eq_true_eq] at h
    exact key (x + 1) y z _ (by unfold Brush.cellIndex; ring) (by omega)
  · intro h
    simp only [decide_eq_true_eq] at h
    exact key x (y + 1) z _ (by unfold Brush.cellIndex; ring) (by omega)
  · intro h
    simp only [decide_eq_true_eq] at h
    exact key (x - 1) y z _ (by unfold Brush.cellIndex; ring) (by omega)
  · intro h
    simp only [decide_eq_true_eq] at h
    exact key x (y - 1) z _ (by unfold Brush.cellIndex; ring) (by omega)
  · intro h
    simp only [decide_eq_true_eq] at h
    exact key x y (z - 1) _ (by unfold Brush.cellIndex; ring) (by omega)

/-- A cell body completes as soon as its front test reads inside the array. -/
theorem meshCell_completes {b : Brush} {x y z : Int} (hwf : b.WellFormed)
    (hin : b.inGrid x y z = true)
    (hfront : z < b.length - 1 →
      ∃ t, b.voxelType (b.cellIndex x y z + (b.height + b.width)) = some t) :
    ∃ cs, meshCell b x y z = some cs := by
  obtain ⟨t, ht⟩ := voxelType_in_grid hwf hin
  obtain ⟨⟨f2, h2⟩, ⟨f3, h3⟩, ⟨f4, h4⟩, ⟨f5, h5⟩, ⟨f6, h6⟩⟩ := five_tests_defined hwf hin
  obtain ⟨f1, h1⟩ := faceUnless_defined b (decide (z < b.length - 1))
    (b.cellIndex x y z + (b.height + b.width)) ⟨FRONT_INDEX, x, y, z⟩
    (fun h => hfront (by simpa using h))
  unfold Brush.cellIndex at ht h1 h2 h3 h4 h5 h6
  unfold meshCell
  simp only [ht, h1, h2, h3, h4, h5, h6]
  by_cases h0 : t = 0
  · exact ⟨[], by simp [h0]⟩
  · exact ⟨f1 ++ f2 ++ f3 ++ f4 ++ f5 ++ f6,
      by simp only [ne_eq, h0, not_false_eq_true, if_true]⟩

/-- On a well-formed grid `meshBrush` reads inside the voxel array throughout
when width and height are both at least 2, or when the grid is one cell deep. -/
theorem meshCalls_completes {b : Brush} (hwf : b.WellFormed)
    (hdim : (2 ≤ b.width ∧ 2 ≤ b.height) ∨ b.length ≤ 1) :
    ∃ calls, meshCalls b = some calls := by
  apply collect_completes
  intro z hz
  apply collect_completes
  intro y hy
  apply collect_completes
  intro x hx
  have hx1 := mem_upTo.mp hx
  have hy1 := mem_upTo.mp hy
  have hz1 := mem_upTo.mp hz
  have hin : b.inGrid x y z = true := by
    simp only [Brush.inGrid, decide_eq_true_eq]
    omega
  apply meshCell_completes hwf hin
  intro hfront
  rcases hdim with ⟨hw, hh⟩ | hl
  · obtain ⟨h0, -⟩ := cellIndex_range hin
    have hwf1 := hwf
    unfold Brush.WellFormed at hwf1
    have hwh : b.height + b.width ≤ b.width * b.height := by nlinarith
    have hpos : 0 ≤ b.width * b.height := by nlinarith
    have h1 : y * b.width ≤ (b.height - 1) * b.width :=
      mul_le_mul_of_nonneg_right (by omega) (by omega)
    have h2 : z * (b.width * b.height) ≤ (b.length - 2) * (b.width * b.height) :=
      mul_le_mul_of_nonneg_right (by omega) hpos
    have hlt : b.cellIndex x y z + (b.height + b.width) < b.voxels.length := by
      rw [hwf1]
      unfold Brush.cellIndex
      nlinarith
    obtain ⟨t, ht, -⟩ := voxelType_in_range (b := b) (i := b.cellIndex x y z +
      (b.height + b.width)) (by omega) hlt
    exact ⟨t, ht⟩
  · omega

/-- On a fully occupied well-formed grid of width 1 or height 1 and length at
least 2, the front test of cell `(width-1, height-1, length-2)` reads past the
end of the voxel array. -/
theorem meshCalls_thin_full_grid {b : Brush} (hwf : b.WellFormed)
    (hfull : ∀ t ∈ b.voxels, t ≠ 0) (hw : 1 ≤ b.width) (hh : 1 ≤ b.height)
    (hthin : b.width = 1 ∨ b.height = 1) (hl : 2 ≤ b.length) :
    meshCalls b = none := by
  have hin : b.inGrid (b.width - 1) (b.height - 1) (b.length - 2) = true := by
    simp only [Brush.inGrid, decide_eq_true_eq]
    omega
  have hcell : meshCell b (b.width - 1) (b.height - 1) (b.length - 2) = none := by
    obtain ⟨t, ht⟩ := voxelType_in_grid hwf hin
    have ht0 : t ≠ 0 := hfull t (voxelType_mem ht)
    have hfront : b.voxelType (b.cellIndex (b.width - 1) (b.height - 1) (b.length - 2) +
        (b.height + b.width)) = none := by
      apply voxelType_beyond
      unfold Brush.WellFormed at hwf
      rw [hwf]
      unfold Brush.cellIndex
      rcases hthin with e | e
      · rw [e]; nlinarith
      · rw [e]; nlinarith
    unfold Brush.cellIndex at ht hfront
    have hz : b.length - 2 < b.length - 1 := by omega
    unfold meshCell
    simp [ht, ht0, faceUnless, hfront, hz]
  exact collect_none _ (mem_upTo.mpr (by omega))
    (collect_none _ (mem_upTo.mpr (by omega))
      (collect_none _ (mem_upTo.mpr (by omega)) hcell))

/-- What the front test of an occupied cell does: below the last slab it looks
at the voxel `height + width` places further on in the array. -/
theorem meshCell_front_face {b : Brush} {x y z : Int} {cs : List FaceCall}
    (h : meshCell b x y z = some cs) (hocc : b.occupied x y z = true) :
    cs.count ⟨FRONT_INDEX, x, y, z⟩ =
      if z < b.length - 1 ∧
          b.voxelType (b.cellIndex x y z + (b.height + b.width)) ≠ some 0 then 0 else 1 := by
  obtain ⟨t, ht, h0 | ⟨-, f1, f2, f3, f4, f5, f6, h1, h2, h3, h4, h5, h6, rfl⟩⟩ :=
    meshCell_eq_some h
  · simp [Brush.occupied, ht, h0.1] at hocc
  · have e1 := faceUnless_eq_some h1
    have e2 := faceUnless_eq_some h2
    have e3 := faceUnless_eq_some h3
    have e4 := faceUnless_eq_some h4
    have e5 := faceUnless_eq_some h5
    have e6 := faceUnless_eq_some h6
    rw [e1, e2, e3, e4, e5, e6]
    simp only [List.count_append]
    simp [count_part, FRONT_INDEX, RIGHT_INDEX, TOP_INDEX, LEFT_INDEX, BOTTOM_INDEX,
      BACK_INDEX]

/-- The front test in a completed run of the mesher. -/
theorem meshCalls_front_face {b : Brush} {calls : List FaceCall} {x y z : Int}
    (h : meshCalls b = some calls) (hin : b.inGrid x y z = true)
    (hocc : b.occupied x y z = true) :
    calls.count ⟨FRONT_INDEX, x, y, z⟩ =
      if z < b.length - 1 ∧
          b.voxelType (b.cellIndex x y z + (b.height + b.width)) ≠ some 0 then 0 else 1 := by
  obtain ⟨cs, hcs, hfilter⟩ := meshCalls_filter_cell h hin
  rw [← meshCell_front_face hcs hocc, ← hfilter, List.count_filter]
  simp [FaceCall.atCell]

/-- The surface of a fully occupied grid, for every run that completes:
`2*(W*H + H*L + W*L)` quads, four vertices each. -/
theorem meshBrush_full_grid_count (st st1 : RenderState) (b : Brush)
    (hfull : ∀ t ∈ b.voxels, t ≠ 0) (hw : 1 ≤ b.width) (hh : 1 ≤ b.height)
    (hl : 1 ≤ b.length) (hrun : meshBrush st b = some st1) :
    (st1._brushVerts.length : Int) =
      4 * (2 * (b.width * b.height + b.height * b.length + b.width * b.length)) := by
  obtain ⟨calls, hcalls, rfl⟩ := meshBrush_eq_some hrun
  show ((brushVertsOf st._voxBaseVerts calls).length : Int) = _
  rw [length_brushVertsOf, Nat.cast_mul, meshCalls_full_length hfull hw hh hl hcalls]
  rfl

/-! ## The mesher: which faces are emitted -/

/-- C1 (fails on the code): on the 3x1x2 grid with voxels 0 and 3 occupied, the
cell (0,0,0) is occupied, its neighbour (0,0,1) is occupied, no read leaves the
array, and `meshBrush` still emits the front face of (0,0,0): the front test
reads index `0 + (height + width) = 4`, not `0 + width*height = 3`. -/
theorem meshBrush_front_test_reads_wrong_cell :
    Brush.WellFormed ⟨3, 1, 2, [1, 0, 0, 1, 0, 0]⟩ ∧
    Brush.occupied ⟨3, 1, 2, [1, 0, 0, 1, 0, 0]⟩ 0 0 0 = true ∧
    Brush.occupied ⟨3, 1, 2, [1, 0, 0, 1, 0, 0]⟩ 0 0 (0 + 1) = true ∧
    Brush.cellIndex ⟨3, 1, 2, [1, 0, 0, 1, 0, 0]⟩ 0 0 (0 + 1) =
      Brush.cellIndex ⟨3, 1, 2, [1, 0, 0, 1, 0, 0]⟩ 0 0 0 + 3 * 1 ∧
    (meshCalls ⟨3, 1, 2, [1, 0, 0, 1, 0, 0]⟩).map (List.count ⟨FRONT_INDEX, 0, 0, 0⟩) =
      some 1 := by
  refine ⟨by decide, by decide, by decide, by decide, by decide⟩

/-- The five faces other than the front one, in every run of `meshBrush` that
completes: an unoccupied cell of the grid gets no
face, and an occupied cell gets, for each of the directions right, top, left,
bottom and back, exactly one quad (the template of that direction translated by
the cell position) when the neighbouring cell is outside the grid or unoccupied,
and none when it is occupied. -/
theorem meshBrush_five_faces (st st1 : RenderState) (b : Brush) (x y z : Int)
    (hcell : b.inGrid x y z = true) (hrun : meshBrush st b = some st1) :
    ∃ calls, meshCalls b = some calls ∧
      st1._brushVerts = calls.flatMap (faceQuad st._voxBaseVerts) ∧
      (b.occupied x y z = false → ∀ c ∈ calls, ¬ (c.x = x ∧ c.y = y ∧ c.z = z)) ∧
      (b.occupied x y z = true →
        calls.count ⟨RIGHT_INDEX, x, y, z⟩ = (if b.occupied (x + 1) y z = true then 0 else 1) ∧
        calls.count ⟨TOP_INDEX, x, y, z⟩ = (if b.occupied x (y + 1) z = true then 0 else 1) ∧
        calls.count ⟨LEFT_INDEX, x, y, z⟩ = (if b.occupied (x - 1) y z = true then 0 else 1) ∧
        calls.count ⟨BOTTOM_INDEX, x, y, z⟩ =
          (if b.occupied x (y - 1) z = true then 0 else 1) ∧
        calls.count ⟨BACK_INDEX, x, y, z⟩ =
          (if b.occupied x y (z - 1) = true then 0 else 1)) := by
  obtain ⟨calls, hcalls, rfl⟩ := meshBrush_eq_some hrun
  obtain ⟨cs, hcs, hfilter⟩ := meshCalls_filter_cell hcalls hcell
  refine ⟨calls, hcalls, brushVertsOf_eq _ _, ?_, ?_⟩
  · intro hocc c hc hat
    obtain ⟨t, ht, h0 | h1⟩ := meshCell_eq_some hcs
    · have hmem : c ∈ calls.filter (FaceCall.atCell x y z) :=
        List.mem_filter.mpr ⟨hc, by simpa [FaceCall.atCell] using hat⟩
      rw [hfilter, h0.2] at hmem
      simp at hmem
    · simp [Brush.occupied, hcell, ht, h1.1] at hocc
  · intro hocc
    have hcount : ∀ i, calls.count ⟨i, x, y, z⟩ = cs.count ⟨i, x, y, z⟩ := by
      intro i
      rw [← hfilter, List.count_filter]
      simp [FaceCall.atCell]
    simp only [hcount]
    exact meshCell_five_faces hcs hcell hocc

/-- The five-face rule at a concrete input: the 2x1x1 grid with both voxels
occupied, cell (0,0,0): no right face (the neighbour is occupied), one left face. -/
theorem meshBrush_five_faces_witness :
    Brush.inGrid ⟨2, 1, 1, [1, 1]⟩ 0 0 0 = true ∧
    meshBrush startup ⟨2, 1, 1, [1, 1]⟩ =
      some ((meshBrush startup ⟨2, 1, 1, [1, 1]⟩).getD startup) ∧
    ∃ calls, meshCalls ⟨2, 1, 1, [1, 1]⟩ = some calls ∧
      calls.count ⟨RIGHT_INDEX, 0, 0, 0⟩ = 0 ∧ calls.count ⟨LEFT_INDEX, 0, 0, 0⟩ = 1 := by
  refine ⟨by decide, rfl, ?_⟩
  obtain ⟨calls, hcalls, -, -, hocc⟩ :=
    meshBrush_five_faces startup _ ⟨2, 1, 1, [1, 1]⟩ 0 0 0 (by decide) rfl
  have h := hocc (by decide)
  refine ⟨calls, hcalls, ?_, ?_⟩
  · rw [h.1]; decide
  · rw [h.2.2.1]; decide

/-- The five-face rule on the grids where every read of `meshBrush` is inside the
voxel array (width and height at least 2, or one cell deep): the run completes
and the rule of `meshBrush_five_faces` holds. -/
theorem meshBrush_five_faces_where_defined (st : RenderState) (b : Brush) (x y z : Int)
    (hwf : b.WellFormed) (hdim : (2 ≤ b.width ∧ 2 ≤ b.height) ∨ b.length ≤ 1)
    (hcell : b.inGrid x y z = true) :
    ∃ st1 calls, meshBrush st b = some st1 ∧ meshCalls b = some calls ∧
      (b.occupied x y z = false → ∀ c ∈ calls, ¬ (c.x = x ∧ c.y = y ∧ c.z = z)) ∧
      (b.occupied x y z = true →
        calls.count ⟨RIGHT_INDEX, x, y, z⟩ = (if b.occupied (x + 1) y z = true then 0 else 1) ∧
        calls.count ⟨TOP_INDEX, x, y, z⟩ = (if b.occupied x (y + 1) z = true then 0 else 1) ∧
        calls.count ⟨LEFT_INDEX, x, y, z⟩ = (if b.occupied (x - 1) y z = true then 0 else 1) ∧
        calls.count ⟨BOTTOM_INDEX, x, y, z⟩ =
          (if b.occupied x (y - 1) z = true then 0 else 1) ∧
        calls.count ⟨BACK_INDEX, x, y, z⟩ =
          (if b.occupied x y (z - 1) = true then 0 else 1)) := by
  obtain ⟨calls0, hcalls0⟩ := meshCalls_completes hwf hdim
  cases hrun : meshBrush st b with
  | none => simp [meshBrush, hcalls0] at hrun
  | some st1 =>
    obtain ⟨calls, hcalls, -, h1, h2⟩ := meshBrush_five_faces st st1 b x y z hcell hrun
    exact ⟨st1, calls, rfl, hcalls, h1, h2⟩

/-- C3 (fails on the code): the fully occupied 1x1x1 grid gives 6 quads (24
vertices, 36 indices) and the fully occupied 2x1x1 grid gives 10 quads, but on
the fully occupied 1x1x2 grid the front test of cell (0,0,0) reads `voxels[2]`
of a two-element array, so the run has no defined result. -/
theorem meshBrush_full_grid_examples (st : RenderState) :
    (∃ st1, meshBrush st ⟨1, 1, 1, [1]⟩ = some st1 ∧ st1._brushVerts.length = 24 ∧
      st1._brushIndices.length = 36) ∧
    (∃ st1, meshBrush st ⟨2, 1, 1, [1, 1]⟩ = some st1 ∧ st1._brushVerts.length = 4 * 10) ∧
    Brush.WellFormed ⟨1, 1, 2, [1, 1]⟩ ∧
    Brush.voxelType ⟨1, 1, 2, [1, 1]⟩ (Brush.cellIndex ⟨1, 1, 2, [1, 1]⟩ 0 0 0 + (1 + 1)) = none ∧
    meshBrush st ⟨1, 1, 2, [1, 1]⟩ = none := by
  have h1 : (meshCalls ⟨1, 1, 1, [1]⟩).map List.length = some 6 := by decide
  have h2 : (meshCalls ⟨2, 1, 1, [1, 1]⟩).map List.length = some 10 := by decide
  have h3 : meshCalls ⟨1, 1, 2, [1, 1]⟩ = none := by decide
  obtain ⟨c1, hc1, hl1⟩ := Option.map_eq_some'.mp h1
  obtain ⟨c2, hc2, hl2⟩ := Option.map_eq_some'.mp h2
  refine ⟨⟨_, by simp only [meshBrush, hc1]; rfl, ?_, ?_⟩, ⟨_, by simp only [meshBrush, hc2]; rfl, ?_⟩,
    by decide, by decide, by simp [meshBrush, h3]⟩
  · simp only [length_brushVertsOf, hl1]
  · simp only [fillIndices_eq, length_brushVertsOf, length_quadIndices, hl1]
  · simp only [length_brushVertsOf, hl2]

/-- C4: after `meshBrush`, whatever the grid and the earlier contents of the
brush vertex list, the number of brush vertices is a multiple of 4 and the
number of indices generated is `(vertexCount / 4) * 6`. -/
theorem meshBrush_index_vertex_ratio (st st1 : RenderState) (b : Brush)
    (hrun : meshBrush st b = some st1) :
    st1._brushVerts.length % 4 = 0 ∧
    st1._brushIndices.length = (st1._brushVerts.length / 4) * 6 := by
  obtain ⟨calls, -, rfl⟩ := meshBrush_eq_some hrun
  refine ⟨?_, ?_⟩
  · show (brushVertsOf st._voxBaseVerts calls).length % 4 = 0
    rw [length_brushVertsOf]
    omega
  · show (quadIndices ((brushVertsOf st._voxBaseVerts calls).length / 4)).length = _
    rw [length_quadIndices]

/-- C4, at a concrete input: the 2x1x1 grid with both voxels occupied, meshed
from a state whose brush vertex list was not empty. -/
theorem meshBrush_index_vertex_ratio_witness :
    meshBrush { startup with _brushVerts := [BlockVertex.zero] } ⟨2, 1, 1, [1, 1]⟩ =
      some ((meshBrush { startup with _brushVerts := [BlockVertex.zero] }
        ⟨2, 1, 1, [1, 1]⟩).getD startup) ∧
    ((meshBrush { startup with _brushVerts := [BlockVertex.zero] }
        ⟨2, 1, 1, [1, 1]⟩).getD startup)._brushVerts.length % 4 = 0 :=
  ⟨rfl, (meshBrush_index_vertex_ratio _ _ ⟨2, 1, 1, [1, 1]⟩ rfl).1⟩

theorem meshCell_origin_alone {b : Brush} (hw : 2 ≤ b.width) (hh : 2 ≤ b.height)
    (hl : 2 ≤ b.length) (hwf : b.WellFormed)
    (hocc : ∀ i t, b.voxels[i]? = some t → (t ≠ 0 ↔ i = 0)) :
    meshCell b 0 0 0 = some [⟨FRONT_INDEX, 0, 0, 0⟩, ⟨RIGHT_INDEX, 0, 0, 0⟩,
      ⟨TOP_INDEX, 0, 0, 0⟩, ⟨LEFT_INDEX, 0, 0, 0⟩, ⟨BOTTOM_INDEX, 0, 0, 0⟩,
      ⟨BACK_INDEX, 0, 0, 0⟩] := by
  unfold Brush.WellFormed at hwf
  have hwh : b.height + b.width ≤ b.width * b.height := by nlinarith
  have hwhl : 2 * (b.width * b.height) ≤ b.width * b.height * b.length := by nlinarith
  have hpos : 0 < b.width * b.height := by nlinarith
  have hzero : ∀ i : Int, 0 < i → i < b.width * b.height * b.length →
      b.voxelType i = some 0 := by
    intro i h0 h1
    obtain ⟨t, ht, hget⟩ := voxelType_in_range (b := b) (le_of_lt h0) (by omega)
    have := hocc _ t hget
    have ht0 : t = 0 := by
      by_contra hne
      have := this.mp hne
      omega
    rw [ht, ht0]
  have horigin : ∃ t, b.voxelType 0 = some t ∧ t ≠ 0 := by
    obtain ⟨t, ht, hget⟩ := voxelType_in_range (b := b) (le_refl 0) (by omega)
    exact ⟨t, ht, (hocc _ t hget).mpr rfl⟩
  obtain ⟨t, ht, hne⟩ := horigin
  have h1 := hzero (b.height + b.width) (by omega) (by omega)
  have h2 := hzero 1 (by omega) (by omega)
  have h3 := hzero b.width (by omega) (by nlinarith)
  unfold meshCell
  have e1 : (0 : Int) < b.length - 1 := by omega
  have e2 : (0 : Int) < b.width - 1 := by omega
  have e3 : (0 : Int) < b.height - 1 := by omega
  simp [ht, hne, faceUnless, h1, h2, h3, e1, e2, e3]

theorem meshCell_elsewhere {b : Brush} (hwf : b.WellFormed)
    (hocc : ∀ i t, b.voxels[i]? = some t → (t ≠ 0 ↔ i = 0)) {x y z : Int}
    (hin : b.inGrid x y z = true) (hne : ¬ (x = 0 ∧ y = 0 ∧ z = 0)) :
    meshCell b x y z = some [] := by
  apply meshCell_unoccupied
  obtain ⟨h0, h1⟩ := cellIndex_range hin
  unfold Brush.WellFormed at hwf
  obtain ⟨t, ht, hget⟩ := voxelType_in_range (b := b) h0 (by omega)
  rw [ht]
  congr 1
  by_contra hne0
  have hz : (b.cellIndex x y z).toNat = 0 := (hocc _ t hget).mp hne0
  have hidx : b.cellIndex x y z = 0 := by omega
  obtain ⟨hx0, hx1, hy0, hy1, hz0, hz1⟩ := inGrid_bounds hin
  unfold Brush.cellIndex at hidx
  have hw : 1 ≤ b.width := by omega
  have hh : 1 ≤ b.height := by omega
  have hwh : 1 ≤ b.width * b.height := by nlinarith
  have a1 : y ≤ y * b.width := by nlinarith
  have a2 : z ≤ z * (b.width * b.height) := by nlinarith
  have a3 : z * b.width * b.height = z * (b.width * b.height) := by ring
  apply hne
  refine ⟨?_, ?_, ?_⟩ <;> omega

theorem meshCalls_origin_alone {b : Brush} (hw : 2 ≤ b.width) (hh : 2 ≤ b.height)
    (hl : 2 ≤ b.length) (hwf : b.WellFormed)
    (hocc : ∀ i t, b.voxels[i]? = some t → (t ≠ 0 ↔ i = 0)) :
    meshCalls b = some [⟨FRONT_INDEX, 0, 0, 0⟩, ⟨RIGHT_INDEX, 0, 0, 0⟩,
      ⟨TOP_INDEX, 0, 0, 0⟩, ⟨LEFT_INDEX, 0, 0, 0⟩, ⟨BOTTOM_INDEX, 0, 0, 0⟩,
      ⟨BACK_INDEX, 0, 0, 0⟩] := by
  have hgrid : ∀ {x y z : Int}, x ∈ upTo b.width → y ∈ upTo b.height → z ∈ upTo b.length →
      b.inGrid x y z = true := by
    intro x y z hx hy hz
    have := mem_upTo.mp hx
    have := mem_upTo.mp hy
    have := mem_upTo.mp hz
    simp only [Brush.inGrid, decide_eq_true_eq]
    omega
  have hrow0 : meshRow b 0 0 = some _ :=
    collect_single _ (upTo_nodup _) (mem_upTo.mpr ⟨le_refl 0, by omega⟩)
      (meshCell_origin_alone hw hh hl hwf hocc)
      (fun x hx hne => meshCell_elsewhere hwf hocc
        (hgrid hx (mem_upTo.mpr ⟨le_refl 0, by omega⟩) (mem_upTo.mpr ⟨le_refl 0, by omega⟩))
        (fun h => hne h.1))
  have hrow : ∀ y ∈ upTo b.height, ∀ z ∈ upTo b.length, ¬ (y = 0 ∧ z = 0) →
      meshRow b y z = some [] := by
    intro y hy z hz hne
    exact collect_all_nil _ (fun x hx => meshCell_elsewhere hwf hocc (hgrid hx hy hz)
      (fun h => hne ⟨h.2.1, h.2.2⟩))
  have hslab0 : meshSlab b 0 = some _ :=
    collect_single _ (upTo_nodup _) (mem_upTo.mpr ⟨le_refl 0, by omega⟩) hrow0
      (fun y hy hne => hrow y hy 0 (mem_upTo.mpr ⟨le_refl 0, by omega⟩) (fun h => hne h.1))
  have hslab : ∀ z ∈ upTo b.length, z ≠ 0 → meshSlab b z = some [] := by
    intro z hz hne
    exact collect_all_nil _ (fun y hy => hrow y hy z hz (fun h => hne h.2))
  exact collect_single _ (upTo_nodup _) (mem_upTo.mpr ⟨le_refl 0, by omega⟩) hslab0 hslab

/-- C5: in a grid with all three dimensions at least 2 whose only occupied voxel
is the one at (0,0,0), `meshBrush` emits exactly six quads (24 vertices): the
front, right, top, left, bottom and back templates, each translated by (0,0,0). -/
theorem meshBrush_corner_voxel (st : RenderState) (b : Brush) (hw : 2 ≤ b.width)
    (hh : 2 ≤ b.height) (hl : 2 ≤ b.length) (hwf : b.WellFormed)
    (hocc : ∀ i t, b.voxels[i]? = some t → (t ≠ 0 ↔ i = 0)) :
    ∃ st1, meshBrush st b = some st1 ∧
      meshCalls b = some [⟨FRONT_INDEX, 0, 0, 0⟩, ⟨RIGHT_INDEX, 0, 0, 0⟩,
        ⟨TOP_INDEX, 0, 0, 0⟩, ⟨LEFT_INDEX, 0, 0, 0⟩, ⟨BOTTOM_INDEX, 0, 0, 0⟩,
        ⟨BACK_INDEX, 0, 0, 0⟩] ∧
      st1._brushVerts =
        faceQuad st._voxBaseVerts ⟨FRONT_INDEX, 0, 0, 0⟩ ++
        faceQuad st._voxBaseVerts ⟨RIGHT_INDEX, 0, 0, 0⟩ ++
        faceQuad st._voxBaseVerts ⟨TOP_INDEX, 0, 0, 0⟩ ++
        faceQuad st._voxBaseVerts ⟨LEFT_INDEX, 0, 0, 0⟩ ++
        faceQuad st._voxBaseVerts ⟨BOTTOM_INDEX, 0, 0, 0⟩ ++
        faceQuad st._voxBaseVerts ⟨BACK_INDEX, 0, 0, 0⟩ ∧
      st1._brushVerts.length = 24 := by
  have hcalls := meshCalls_origin_alone hw hh hl hwf hocc
  refine ⟨_, by simp only [meshBrush, hcalls]; rfl, hcalls, ?_, ?_⟩
  · simp only [brushVertsOf_eq, List.flatMap_cons, List.flatMap_nil, List.append_nil,
      List.append_assoc]
  · simp only [length_brushVertsOf, List.length_cons, List.length_nil]

/-- C5, at a concrete input: the 2x2x2 grid with only voxel 0 occupied. -/
theorem meshBrush_corner_voxel_witness :
    (2 : Int) ≤ 2 ∧ Brush.WellFormed ⟨2, 2, 2, [1, 0, 0, 0, 0, 0, 0, 0]⟩ ∧
    (∀ i t, [1, 0, 0, 0, 0, 0, 0, 0][i]? = some t → (t ≠ 0 ↔ i = 0)) ∧
    ∃ st1, meshBrush startup ⟨2, 2, 2, [1, 0, 0, 0, 0, 0, 0, 0]⟩ = some st1 ∧
      st1._brushVerts.length = 24 := by
  have hocc : ∀ i t, [1, 0, 0, 0, 0, 0, 0, 0][i]? = some t → (t ≠ 0 ↔ i = 0) := by
    intro i t h
    match i, h with
    | 0, h => simp at h; subst h; simp
    | 1, h | 2, h | 3, h | 4, h | 5, h | 6, h | 7, h => simp at h; subst h; simp
    | _ + 8, h => simp at h
  obtain ⟨st1, h1, -, -, h2⟩ := meshBrush_corner_voxel startup
    ⟨2, 2, 2, [1, 0, 0, 0, 0, 0, 0, 0]⟩ (le_refl 2) (le_refl 2) (le_refl 2) (by decide) hocc
  exact ⟨le_refl 2, by decide, hocc, st1, h1, h2⟩

/-- C6: on a grid whose voxels are all unoccupied, of any dimensions and whatever
the earlier contents of the brush vertex list, `meshBrush` leaves the brush
vertex list empty and generates an index list of length 0. -/
theorem meshBrush_empty_grid (st : RenderState) (b : Brush) (hwf : b.WellFormed)
    (hall : ∀ t ∈ b.voxels, t = 0) :
    ∃ st1, meshBrush st b = some st1 ∧ st1._brushVerts = [] ∧ st1._brushIndices = [] ∧
      st1._brushIndices.length = 0 := by
  have hcell : ∀ x ∈ upTo b.width, ∀ y ∈ upTo b.height, ∀ z ∈ upTo b.length,
      meshCell b x y z = some [] := by
    intro x hx y hy z hz
    have hin : b.inGrid x y z = true := by
      have := mem_upTo.mp hx
      have := mem_upTo.mp hy
      have := mem_upTo.mp hz
      simp only [Brush.inGrid, decide_eq_true_eq]
      omega
    apply meshCell_unoccupied
    obtain ⟨h0, h1⟩ := cellIndex_range hin
    unfold Brush.WellFormed at hwf
    obtain ⟨t, ht, hget⟩ := voxelType_in_range (b := b) h0 (by omega)
    rw [ht, hall t (List.getElem?_mem hget)]
  have hcalls : meshCalls b = some [] :=
    collect_all_nil _ (fun z hz => collect_all_nil _ (fun y hy =>
      collect_all_nil _ (fun x hx => hcell x hx y hy z hz)))
  refine ⟨_, by simp only [meshBrush, hcalls]; rfl, ?_, ?_, ?_⟩ <;>
    simp [brushVertsOf, fillIndices, indexLoop]

/-- C6, at concrete inputs: an unoccupied 2x1x1 grid meshed over a non-empty
brush vertex list. -/
theorem meshBrush_empty_grid_witness :
    Brush.WellFormed ⟨2, 1, 1, [0, 0]⟩ ∧ (∀ t ∈ [0, 0], t = 0) ∧
    ∃ st1, meshBrush { startup with _brushVerts := [BlockVertex.zero] } ⟨2, 1, 1, [0, 0]⟩ =
        some st1 ∧ st1._brushVerts = [] ∧ st1._brushIndices = [] ∧
      st1._brushIndices.length = 0 :=
  ⟨by decide, by decide,
    meshBrush_empty_grid { startup with _brushVerts := [BlockVertex.zero] } ⟨2, 1, 1, [0, 0]⟩
      (by decide) (by decide)⟩

/-! ## The reference cursor -/

theorem truncate_intCast (n : Int) : truncate (n : ℚ) = n := by
  simp [truncate]

theorem positionChanged_self (p : Vec3) : positionChanged p p = false := by
  simp [positionChanged]

theorem positionChanged_eq_false {p q : Vec3} :
    positionChanged p q = false ↔
      truncate p.x = truncate q.x ∧ truncate p.y = truncate q.y ∧ truncate p.z = truncate q.z := by
  simp [positionChanged, and_assoc]

theorem positionChanged_ofInts (x1 y1 z1 x2 y2 z2 : Int) :
    positionChanged (Vec3.ofInts x2 y2 z2) (Vec3.ofInts x1 y1 z1) = false ↔
      x2 = x1 ∧ y2 = y1 ∧ z2 = z1 := by
  rw [positionChanged_eq_false]
  simp [Vec3.ofInts, truncate_intCast]

/-- A draw request on a state that is not initialised yet runs
`initializeReferenceVoxel` first. -/
theorem drawReferenceVoxel_lazy_init (cv cn : Nat → ℚ) (st : RenderState) (p : Vec3)
    (br : Option Brush) (h : st._referenceCubeMesh = none) :
    drawReferenceVoxel cv cn st p br =
      drawReferenceVoxel cv cn (initializeReferenceVoxel cv cn st) p br := by
  unfold drawReferenceVoxel
  simp [h, initializeReferenceVoxel]

/-- The path of lines 296-299: same position, the buffers are bound again. -/
theorem drawReferenceVoxel_unchanged (cv cn : Nat → ℚ) (st : RenderState) (p : Vec3)
    (br : Option Brush) (m : Mesh) (hm : st._referenceCubeMesh = some m)
    (hsame : positionChanged p st._lastPosition = false) :
    drawReferenceVoxel cv cn st p br =
      some { st with
        gpu := ((st.gpu.bindArrayBuffer m.vboID).bindElementArrayBuffer m.iboID).glDrawElements
          (match br with
           | some _ => (6 * st._brushVerts.length) / 4
           | none => 36) } := by
  unfold drawReferenceVoxel
  cases br <;> simp [hm, hsame]

/-- The path of lines 274-283: the cube template is copied, translated and uploaded. -/
theorem drawReferenceVoxel_simple_moved (cv cn : Nat → ℚ) (st : RenderState) (p : Vec3)
    (m : Mesh) (hm : st._referenceCubeMesh = some m)
    (hmoved : positionChanged p st._lastPosition = true) :
    drawReferenceVoxel cv cn st p none =
      some { st with
        _voxVerts := ⟨(List.range 24).map fun i => (st._voxBaseVerts.vert i).translate p⟩
        _referenceCubeMesh := some (uploadMesh st.gpu m
          ((List.range 24).map fun i => (st._voxBaseVerts.vert i).translate p) 24
          st._referenceCubeIndices 36).1
        gpu := (uploadMesh st.gpu m
          ((List.range 24).map fun i => (st._voxBaseVerts.vert i).translate p) 24
          st._referenceCubeIndices 36).2.glDrawElements 36
        _lastPosition := p } := by
  unfold drawReferenceVoxel
  simp [hm, hmoved]

/-- The path of lines 284-293: the brush vertices are translated in place and
uploaded; element 0 of the vertex list is read. -/
theorem drawReferenceVoxel_brushed_moved (cv cn : Nat → ℚ) (st : RenderState) (p : Vec3)
    (b : Brush) (m : Mesh) (hm : st._referenceCubeMesh = some m)
    (hmoved : positionChanged p st._lastPosition = true) (hne : st._brushVerts ≠ []) :
    drawReferenceVoxel cv cn st p (some b) =
      some { st with
        _brushVerts := st._brushVerts.map fun v => v.translate (moveDelta p st._lastPosition)
        _referenceCubeMesh := some (uploadMesh st.gpu m
          (st._brushVerts.map fun v => v.translate (moveDelta p st._lastPosition))
          st._brushVerts.length st._brushIndices ((st._brushVerts.length / 4) * 6)).1
        gpu := (uploadMesh st.gpu m
          (st._brushVerts.map fun v => v.translate (moveDelta p st._lastPosition))
          st._brushVerts.length st._brushIndices
            ((st._brushVerts.length / 4) * 6)).2.glDrawElements
              ((6 * st._brushVerts.length) / 4)
        _lastPosition := p } := by
  unfold drawReferenceVoxel
  obtain ⟨v, vs, hv⟩ := List.exists_cons_of_ne_nil hne
  simp [hm, hmoved, hv, moveDelta]

/-- A Brushed-mode move with an empty brush vertex list reads element 0 of the
empty list. -/
theorem drawReferenceVoxel_brushed_empty (cv cn : Nat → ℚ) (st : RenderState) (p : Vec3)
    (b : Brush) (m : Mesh) (hm : st._referenceCubeMesh = some m)
    (hmoved : positionChanged p st._lastPosition = true) (hnil : st._brushVerts = []) :
    drawReferenceVoxel cv cn st p (some b) = none := by
  unfold drawReferenceVoxel
  simp [hm, hmoved, hnil]

theorem translate_translate (v : BlockVertex) (d e : Vec3) :
    (v.translate d).translate e = v.translate (d.add e) := by
  simp [BlockVertex.translate, Vec3.add, add_assoc]

theorem add_moveDelta (x1 y1 z1 x2 y2 z2 : Int) :
    (Vec3.ofInts x1 y1 z1).add (moveDelta (Vec3.ofInts x2 y2 z2) (Vec3.ofInts x1 y1 z1)) =
      Vec3.ofInts x2 y2 z2 := by
  simp [Vec3.add, moveDelta, Vec3.ofInts]

theorem translate_injective {v : BlockVertex} {d e : Vec3}
    (h : v.translate d = v.translate e) : d = e := by
  have hp := congrArg BlockVertex.position h
  simp only [BlockVertex.translate, Vec3.add, Vec3.mk.injEq] at hp
  obtain ⟨h1, h2, h3⟩ := hp
  cases d
  cases e
  simp only [Vec3.mk.injEq]
  exact ⟨add_left_cancel h1, add_left_cancel h2, add_left_cancel h3⟩

theorem map_translate_injective {l : List BlockVertex} {d e : Vec3} (hne : l ≠ [])
    (h : l.map (fun v => v.translate d) = l.map (fun v => v.translate e)) : d = e := by
  obtain ⟨v, vs, rfl⟩ := List.exists_cons_of_ne_nil hne
  simp only [List.map_cons, List.cons.injEq] at h
  exact translate_injective h.1

theorem meshCalls_one_voxel :
    meshCalls ⟨1, 1, 1, [1]⟩ = some [⟨FRONT_INDEX, 0, 0, 0⟩, ⟨RIGHT_INDEX, 0, 0, 0⟩,
      ⟨TOP_INDEX, 0, 0, 0⟩, ⟨LEFT_INDEX, 0, 0, 0⟩, ⟨BOTTOM_INDEX, 0, 0, 0⟩,
      ⟨BACK_INDEX, 0, 0, 0⟩] := by decide

theorem meshBrush_one_voxel (st : RenderState) :
    ∃ st1, meshBrush st ⟨1, 1, 1, [1]⟩ = some st1 ∧ st1._brushVerts ≠ [] ∧
      st1._lastPosition = Vec3.ofInts 0 0 0 ∧ st1._referenceCubeMesh = st._referenceCubeMesh ∧
      st1._voxBaseVerts = st._voxBaseVerts := by
  cases hrun : meshBrush st ⟨1, 1, 1, [1]⟩ with
  | none => simp [meshBrush, meshCalls_one_voxel] at hrun
  | some st1 =>
    obtain ⟨calls, hcalls, rfl⟩ := meshBrush_eq_some hrun
    rw [meshCalls_one_voxel] at hcalls
    cases hcalls
    refine ⟨_, rfl, ?_, ?_, rfl, rfl⟩
    · intro h
      have := congrArg List.length h
      simp only [length_brushVertsOf] at this
      simp at this
    · simp [Vec3.ofInts]

/-- C7 (as stated, fails on the code): mesh the one-voxel brush right after
startup, so that the cached vertex list is the mesh at (0,0,0) and the cached
position is (0,0,0), then request a Brushed-mode draw at (5,0,0). The draw runs
`initializeReferenceVoxel` first, which resets the cached position to
(-1,-1,-1); the vertices are moved by (6,1,1) and are not the mesh at (5,0,0). -/
theorem translation_cache_broken_by_lazy_init :
    ∃ st1 st2, meshBrush startup ⟨1, 1, 1, [1]⟩ = some st1 ∧
      st1._lastPosition = Vec3.ofInts 0 0 0 ∧
      st1._brushVerts = st1._brushVerts.map (fun v => v.translate (Vec3.ofInts 0 0 0)) ∧
      drawReferenceVoxel (fun _ => 0) (fun _ => 0) st1 (Vec3.ofInts 5 0 0)
        (some ⟨1, 1, 1, [1]⟩) = some st2 ∧
      st2._brushVerts ≠ st1._brushVerts.map (fun v => v.translate (Vec3.ofInts 5 0 0)) := by
  obtain ⟨st1, hst1, hne, hlast, hmesh, -⟩ := meshBrush_one_voxel startup
  have hmoved : positionChanged (Vec3.ofInts 5 0 0)
      (initializeReferenceVoxel (fun _ => 0) (fun _ => 0) st1)._lastPosition = true := by
    simp only [initializeReferenceVoxel]
    decide
  have hdraw := drawReferenceVoxel_brushed_moved (fun _ => 0) (fun _ => 0)
    (initializeReferenceVoxel (fun _ => 0) (fun _ => 0) st1) (Vec3.ofInts 5 0 0)
    ⟨1, 1, 1, [1]⟩ ⟨0, 0, 0⟩ rfl hmoved hne
  rw [← drawReferenceVoxel_lazy_init _ _ _ _ _ (by rw [hmesh]; rfl)] at hdraw
  refine ⟨st1, _, hst1, hlast, ?_, hdraw, ?_⟩
  · have hid : (fun v : BlockVertex => v.translate (Vec3.ofInts 0 0 0)) = id := by
      funext v
      simp [BlockVertex.translate, Vec3.add, Vec3.ofInts]
    rw [hid, List.map_id]
  · intro h
    have hd := map_translate_injective hne h
    have hx := congrArg Vec3.x hd
    simp only [moveDelta, initializeReferenceVoxel, Vec3.ofInts] at hx
    norm_num at hx

/-- C7 (amended): once the reference voxel is initialised, if the cached brush
vertex list is the non-empty `meshBrush` output shifted by an integer position
P1 and the cached position is P1, then a Brushed-mode draw request at an integer
position P2 completes and leaves the cached vertex list equal to the `meshBrush`
output shifted by P2: same order, positions shifted, colours and normals as they
were. -/
theorem drawReferenceVoxel_translation_cache (cv cn : Nat → ℚ) (st0 st1 st : RenderState)
    (b : Brush) (x1 y1 z1 x2 y2 z2 : Int)
    (hmesh : meshBrush st0 b = some st1) (hne : st1._brushVerts ≠ [])
    (hinit : st._referenceCubeMesh ≠ none)
    (hcache : st._brushVerts = st1._brushVerts.map (fun v => v.translate (Vec3.ofInts x1 y1 z1)))
    (hlast : st._lastPosition = Vec3.ofInts x1 y1 z1) :
    ∃ st2, drawReferenceVoxel cv cn st (Vec3.ofInts x2 y2 z2) (some b) = some st2 ∧
      st2._brushVerts = st1._brushVerts.map (fun v => v.translate (Vec3.ofInts x2 y2 z2)) ∧
      st2._lastPosition.x = x2 ∧ st2._lastPosition.y = y2 ∧ st2._lastPosition.z = z2 := by
  have _ := hmesh
  obtain ⟨m, hm⟩ := Option.ne_none_iff_exists'.mp hinit
  cases hch : positionChanged (Vec3.ofInts x2 y2 z2) st._lastPosition with
  | false =>
    have hch1 := hch
    rw [hlast] at hch1
    obtain ⟨rfl, rfl, rfl⟩ := (positionChanged_ofInts _ _ _ _ _ _).mp hch1
    refine ⟨_, drawReferenceVoxel_unchanged cv cn st _ _ m hm hch, hcache, ?_, ?_, ?_⟩ <;>
      simp [hlast, Vec3.ofInts]
  | true =>
    have hne2 : st._brushVerts ≠ [] := by
      rw [hcache]
      simpa using hne
    refine ⟨_, drawReferenceVoxel_brushed_moved cv cn st _ b m hm hch hne2, ?_, rfl, rfl, rfl⟩
    show st._brushVerts.map _ = _
    rw [hcache, List.map_map, hlast]
    apply List.map_congr_left
    intro v _
    simp only [Function.comp, translate_translate, add_moveDelta]

/-- C7 (amended), at a concrete input: the one-voxel brush meshed after
initialisation (cached at (0,0,0)), then drawn at (5,0,0). -/
theorem drawReferenceVoxel_translation_cache_witness :
    ∃ st1 st2, meshBrush (initializeReferenceVoxel (fun _ => 0) (fun _ => 0) startup)
        ⟨1, 1, 1, [1]⟩ = some st1 ∧ st1._brushVerts ≠ [] ∧ st1._referenceCubeMesh ≠ none ∧
      st1._lastPosition = Vec3.ofInts 0 0 0 ∧
      drawReferenceVoxel (fun _ => 0) (fun _ => 0) st1 (Vec3.ofInts 5 0 0)
        (some ⟨1, 1, 1, [1]⟩) = some st2 ∧
      st2._brushVerts = st1._brushVerts.map (fun v => v.translate (Vec3.ofInts 5 0 0)) := by
  obtain ⟨st1, hst1, hne, hlast, hmesh, -⟩ :=
    meshBrush_one_voxel (initializeReferenceVoxel (fun _ => 0) (fun _ => 0) startup)
  have hinit : st1._referenceCubeMesh ≠ none := by
    rw [hmesh]
    simp [initializeReferenceVoxel]
  have hcache : st1._brushVerts =
      st1._brushVerts.map (fun v => v.translate (Vec3.ofInts 0 0 0)) := by
    have hid : (fun v : BlockVertex => v.translate (Vec3.ofInts 0 0 0)) = id := by
      funext v
      simp [BlockVertex.translate, Vec3.add, Vec3.ofInts]
    rw [hid, List.map_id]
  obtain ⟨st2, h2, h3, -⟩ := drawReferenceVoxel_translation_cache (fun _ => 0) (fun _ => 0)
    _ st1 st1 ⟨1, 1, 1, [1]⟩ 0 0 0 5 0 0 hst1 hne hinit hcache hlast
  exact ⟨st1, st2, hst1, hne, hinit, hlast, h2, h3⟩

theorem uploadMesh_generated (g : Gpu) (m : Mesh) (vs : List BlockVertex) (n : Nat)
    (ixs : List Nat) (k : Nat) : (uploadMesh g m vs n ixs k).2.generated = g.generated + 2 := rfl

theorem drawReferenceVoxel_settles_init (cv cn : Nat → ℚ) (st st1 : RenderState) (p : Vec3)
    (br : Option Brush) (m : Mesh) (hm : st._referenceCubeMesh = some m)
    (h : drawReferenceVoxel cv cn st p br = some st1) :
    (∃ m1, st1._referenceCubeMesh = some m1) ∧ positionChanged p st1._lastPosition = false := by
  cases hch : positionChanged p st._lastPosition with
  | false =>
    rw [drawReferenceVoxel_unchanged cv cn st p br m hm hch] at h
    cases h
    exact ⟨⟨m, hm⟩, hch⟩
  | true =>
    cases br with
    | none =>
      rw [drawReferenceVoxel_simple_moved cv cn st p m hm hch] at h
      cases h
      exact ⟨⟨_, rfl⟩, positionChanged_self p⟩
    | some b =>
      by_cases hnil : st._brushVerts = []
      · rw [drawReferenceVoxel_brushed_empty cv cn st p b m hm hch hnil] at h
        cases h
      · rw [drawReferenceVoxel_brushed_moved cv cn st p b m hm hch hnil] at h
        cases h
        exact ⟨⟨_, rfl⟩, positionChanged_self p⟩

theorem drawReferenceVoxel_settles (cv cn : Nat → ℚ) (st st1 : RenderState) (p : Vec3)
    (br : Option Brush) (h : drawReferenceVoxel cv cn st p br = some st1) :
    (∃ m1, st1._referenceCubeMesh = some m1) ∧ positionChanged p st1._lastPosition = false := by
  cases hm : st._referenceCubeMesh with
  | none =>
    rw [drawReferenceVoxel_lazy_init cv cn st p br hm] at h
    exact drawReferenceVoxel_settles_init cv cn _ st1 p br ⟨0, 0, 0⟩ rfl h
  | some m => exact drawReferenceVoxel_settles_init cv cn st st1 p br m hm h

/-- C8: when two draw requests are made one after the other at the same position
(in either mode, each), the second does not enter the rebuild path: it completes,
uploads nothing, creates no buffer, and leaves the cached cursor vertices, the
brush vertex list and the cached position as the first request left them. -/
theorem drawReferenceVoxel_same_position (cv cn : Nat → ℚ) (st st1 : RenderState) (p : Vec3)
    (br1 br2 : Option Brush) (h1 : drawReferenceVoxel cv cn st p br1 = some st1) :
    positionChanged p st1._lastPosition = false ∧
    ∃ st2, drawReferenceVoxel cv cn st1 p br2 = some st2 ∧
      st2.gpu.uploads = st1.gpu.uploads ∧ st2.gpu.generated = st1.gpu.generated ∧
      st2._voxVerts = st1._voxVerts ∧ st2._brushVerts = st1._brushVerts ∧
      st2._lastPosition = st1._lastPosition ∧ st2._voxBaseVerts = st1._voxBaseVerts ∧
      st2._referenceCubeMesh = st1._referenceCubeMesh := by
  obtain ⟨⟨m1, hm1⟩, hsame⟩ := drawReferenceVoxel_settles cv cn st st1 p br1 h1
  exact ⟨hsame, _, drawReferenceVoxel_unchanged cv cn st1 p br2 m1 hm1 hsame,
    rfl, rfl, rfl, rfl, rfl, rfl, rfl⟩

/-- C8, at a concrete input: two Simple-mode draws at (3,4,5) right after startup. -/
theorem drawReferenceVoxel_same_position_witness :
    ∃ st1 st2, drawReferenceVoxel (fun _ => 0) (fun _ => 0) startup ⟨3, 4, 5⟩ none = some st1 ∧
      drawReferenceVoxel (fun _ => 0) (fun _ => 0) st1 ⟨3, 4, 5⟩ none = some st2 ∧
      st1.gpu.uploads.length = 2 ∧ st2.gpu.uploads = st1.gpu.uploads ∧
      st2._lastPosition = st1._lastPosition := by
  have hmoved : positionChanged ⟨3, 4, 5⟩
      (initializeReferenceVoxel (fun _ => 0) (fun _ => 0) startup)._lastPosition = true := by
    simp only [initializeReferenceVoxel]
    decide
  have hdraw := drawReferenceVoxel_simple_moved (fun _ => 0) (fun _ => 0)
    (initializeReferenceVoxel (fun _ => 0) (fun _ => 0) startup) ⟨3, 4, 5⟩ ⟨0, 0, 0⟩ rfl hmoved
  rw [← drawReferenceVoxel_lazy_init _ _ _ _ _ rfl] at hdraw
  obtain ⟨-, st2, h2, hup, -, -, -, hlast, -⟩ :=
    drawReferenceVoxel_same_position (fun _ => 0) (fun _ => 0) startup _ ⟨3, 4, 5⟩ none none hdraw
  exact ⟨_, st2, hdraw, h2, rfl, hup, hlast⟩

theorem meshCell_index {b : Brush} {x y z : Int} {cs : List FaceCall}
    (h : meshCell b x y z = some cs) : ∀ c ∈ cs, c.index ≤ 20 := by
  obtain ⟨t, -, h0 | ⟨-, f1, f2, f3, f4, f5, f6, h1, h2, h3, h4, h5, h6, rfl⟩⟩ :=
    meshCell_eq_some h
  · rw [h0.2]
    intro c hc
    simp at hc
  · have e1 := faceUnless_eq_some h1
    have e2 := faceUnless_eq_some h2
    have e3 := faceUnless_eq_some h3
    have e4 := faceUnless_eq_some h4
    have e5 := faceUnless_eq_some h5
    have e6 := faceUnless_eq_some h6
    intro c hc
    simp only [List.mem_append] at hc
    rcases hc with ((((hc | hc) | hc) | hc) | hc) | hc
    · rw [e1] at hc; split at hc <;> simp at hc; subst hc; simp [FRONT_INDEX]
    · rw [e2] at hc; split at hc <;> simp at hc; subst hc; simp [RIGHT_INDEX]
    · rw [e3] at hc; split at hc <;> simp at hc; subst hc; simp [TOP_INDEX]
    · rw [e4] at hc; split at hc <;> simp at hc; subst hc; simp [LEFT_INDEX]
    · rw [e5] at hc; split at hc <;> simp at hc; subst hc; simp [BOTTOM_INDEX]
    · rw [e6] at hc; split at hc <;> simp at hc; subst hc; simp [BACK_INDEX]

theorem meshCalls_index {b : Brush} {calls : List FaceCall} (h : meshCalls b = some calls) :
    ∀ c ∈ calls, c.index ≤ 20 := by
  intro c hc
  obtain ⟨z, -, sz, hsz, hcz⟩ := collect_mem _ _ h c hc
  obtain ⟨y, -, sy, hsy, hcy⟩ := collect_mem _ _ hsz c hcz
  obtain ⟨x, -, sx, hsx, hcx⟩ := collect_mem _ _ hsy c hcy
  exact meshCell_index hsx c hcx

theorem changeReferenceColor_vert (st : RenderState) (r g bl a : ℚ) {i : Nat} (hi : i < 24) :
    (changeReferenceColor st r g bl a)._voxBaseVerts.vert i =
      (st._voxBaseVerts.vert i).withColor
        ⟨toGLubyte r, toGLubyte g, toGLubyte bl, toGLubyte a⟩ := by
  simp [changeReferenceColor, BlockMesh.vert, List.getD, List.getElem?_map,
    List.getElem?_range hi, BlockVertex.withColor]

theorem faceQuad_changeReferenceColor (st : RenderState) (r g bl a : ℚ) (c : FaceCall)
    (hc : c.index ≤ 20) :
    faceQuad (changeReferenceColor st r g bl a)._voxBaseVerts c =
      (faceQuad st._voxBaseVerts c).map fun v =>
        v.withColor ⟨toGLubyte r, toGLubyte g, toGLubyte bl, toGLubyte a⟩ := by
  unfold faceQuad
  rw [List.map_map]
  apply List.map_congr_left
  intro i hi
  have hi4 : i < 4 := by simpa [VERTS_PER_QUAD] using hi
  rw [Function.comp, changeReferenceColor_vert st r g bl a (by omega)]
  rfl

theorem brushVertsOf_changeReferenceColor (st : RenderState) (r g bl a : ℚ) :
    ∀ (calls : List FaceCall), (∀ c ∈ calls, c.index ≤ 20) →
      brushVertsOf (changeReferenceColor st r g bl a)._voxBaseVerts calls =
        (brushVertsOf st._voxBaseVerts calls).map fun v =>
          v.withColor ⟨toGLubyte r, toGLubyte g, toGLubyte bl, toGLubyte a⟩ := by
  intro calls h
  rw [brushVertsOf_eq, brushVertsOf_eq]
  induction calls with
  | nil => rfl
  | cons c cs ih =>
    rw [List.flatMap_cons, List.flatMap_cons, List.map_append,
      faceQuad_changeReferenceColor st r g bl a c (h c (List.mem_cons_self _ _)),
      ih (fun d hd => h d (List.mem_cons_of_mem _ hd))]

/-- C10 (as stated, fails on the code): after initialisation, meshing the
one-voxel brush gives vertices of colour (0,0,0,100); after
`changeReferenceColor(255,0,0,255)` the same call gives vertices of colour
(255,0,0,255). -/
theorem reference_color_reaches_brush_mesh :
    (meshBrush (changeReferenceColor
        (initializeReferenceVoxel (fun _ => 0) (fun _ => 0) startup) 255 0 0 255)
        ⟨1, 1, 1, [1]⟩).map (fun s => s._brushVerts) ≠
    (meshBrush (initializeReferenceVoxel (fun _ => 0) (fun _ => 0) startup)
        ⟨1, 1, 1, [1]⟩).map (fun s => s._brushVerts) := by
  intro h
  have hcol := congrArg (Option.map (List.map BlockVertex.color)) h
  revert hcol
  simp only [meshBrush, meshCalls_one_voxel, Option.map_some', Option.map_map]
  decide

/-- C10 (amended): `meshBrush` copies its faces from the one template that
`changeReferenceColor` recolours. For every brush and colour, the vertex list
`meshBrush` produces after `changeReferenceColor(c)` is the list it produces
without that call with every colour replaced by `c` (as bytes): same vertices in
the same order, same positions and normals. -/
theorem changeReferenceColor_meshBrush (st : RenderState) (b : Brush) (r g bl a : ℚ) :
    (meshBrush (changeReferenceColor st r g bl a) b).map (fun s => s._brushVerts) =
    (meshBrush st b).map (fun s => s._brushVerts.map fun v =>
      v.withColor ⟨toGLubyte r, toGLubyte g, toGLubyte bl, toGLubyte a⟩) := by
  unfold meshBrush
  cases hc : meshCalls b with
  | none => rfl
  | some calls =>
    simp only [Option.map_some', Option.some.injEq]
    exact brushVertsOf_changeReferenceColor st r g bl a calls (meshCalls_index hc)

/-! ## checkGlError -/

/-- C11: `checkGlError` returns true exactly when the polled code is
out-of-memory; it returns false when there is no error, for invalid-enum,
invalid-value, invalid-operation, invalid-framebuffer-operation and for every
other code; and it passes a message to `error` (exactly one) exactly when the
code is not `GL_NO_ERROR`. -/
theorem checkGlError_contract (err : Nat) :
    ((checkGlError err).1 = true ↔ err = GL_OUT_OF_MEMORY) ∧
    (checkGlError GL_NO_ERROR).1 = false ∧ (checkGlError GL_INVALID_ENUM).1 = false ∧
    (checkGlError GL_INVALID_VALUE).1 = false ∧ (checkGlError GL_INVALID_OPERATION).1 = false ∧
    (checkGlError GL_INVALID_FRAMEBUFFER_OPERATION).1 = false ∧
    ((checkGlError err).2 ≠ [] ↔ err ≠ GL_NO_ERROR) ∧
    (checkGlError err).2.length = (if err = GL_NO_ERROR then 0 else 1) := by
  refine ⟨?_, by decide, by decide, by decide, by decide, by decide, ?_, ?_⟩
  · unfold checkGlError
    by_cases h0 : err = GL_NO_ERROR
    · subst h0
      simp [GL_NO_ERROR, GL_OUT_OF_MEMORY]
    · by_cases h1 : err = GL_OUT_OF_MEMORY
      · simp [h1, GL_NO_ERROR, GL_OUT_OF_MEMORY]
      · simp only [ne_eq, h0, not_false_eq_true, if_true, h1, if_false]
        split_ifs <;> simp
  · unfold checkGlError
    by_cases h0 : err = GL_NO_ERROR
    · simp [h0]
    · simp only [ne_eq, h0, not_false_eq_true, if_true]
      split_ifs <;> simp
  · unfold checkGlError
    by_cases h0 : err = GL_NO_ERROR
    · simp [h0]
    · simp only [ne_eq, h0, not_false_eq_true, if_true, if_false]
      split_ifs <;> simp

/-! ## The wireframe box and uploadMesh -/

/-- C12 (fails on the code): on a null `_mesh` `releaseWireframeBox` does
nothing; on a live one it deletes the two buffers and the mesh, but leaves
`_mesh` pointing to the destroyed object, so a second call passes the guard
`if(_mesh)` and reads `_mesh->vboID` of the deleted mesh to delete again. -/
theorem releaseWireframeBox_second_call_reads_deleted_mesh (st : RenderState) (m : Mesh) :
    releaseWireframeBox { st with _mesh := .null } = some { st with _mesh := .null } ∧
    releaseWireframeBox { st with _mesh := .live m } =
      some { st with
        _mesh := .freed m
        gpu := { st.gpu with deleted := st.gpu.deleted ++ [m.vboID, m.iboID] } } ∧
    releaseWireframeBox { st with
        _mesh := .freed m
        gpu := { st.gpu with deleted := st.gpu.deleted ++ [m.vboID, m.iboID] } } = none ∧
    (initializeWireframeBox startup)._mesh = .live ⟨1, 2, 24⟩ ∧
    (releaseWireframeBox (initializeWireframeBox startup)).bind releaseWireframeBox = none := by
  refine ⟨rfl, ?_, rfl, by decide, by decide⟩
  simp [releaseWireframeBox, Gpu.glDeleteBuffers]

/-- C13 (fails on the code): `uploadMesh` calls `glGenBuffers` twice on every
call, whatever the ids of the handle: two new buffer objects are created and
both ids are overwritten with the new names. A handle with ids 1 and 2, on a
context that has handed out two names, comes back with ids 3 and 4. -/
theorem uploadMesh_always_generates (g : Gpu) (m : Mesh) (vs : List BlockVertex)
    (ps : List Vec3) (n : Nat) (ixs : List Nat) (k : Nat) :
    (uploadMesh g m vs n ixs k).2.generated = g.generated + 2 ∧
    (uploadMesh g m vs n ixs k).1.vboID = g.generated + 1 ∧
    (uploadMesh g m vs n ixs k).1.iboID = g.generated + 2 ∧
    (uploadMeshVec3 g m ps n ixs k).2.generated = g.generated + 2 ∧
    (uploadMeshVec3 g m ps n ixs k).1.vboID = g.generated + 1 ∧
    (uploadMeshVec3 g m ps n ixs k).1.iboID = g.generated + 2 ∧
    (uploadMesh { Gpu.fresh with generated := 2 } ⟨1, 2, 36⟩ vs n ixs k).1 = ⟨3, 4, 36⟩ ∧
    (uploadMesh { Gpu.fresh with generated := 2 } ⟨1, 2, 36⟩ vs n ixs k).2.generated = 4 :=
  ⟨rfl, rfl, rfl, rfl, rfl, rfl, rfl, rfl⟩

/-- C16: the wireframe table is the unit cube. The 8 vertices are pairwise
distinct points with coordinates 0 or 1 (so every point of {0,1}^3 occurs); the
24 indices are all below 8 and, read as 12 consecutive pairs, give 12 pairwise
distinct undirected edges, each joining two vertices that differ in exactly one
coordinate. -/
theorem wireframeBox_is_unit_cube :
    initializeWireframeBox.vertices.length = initializeWireframeBox.numVertices ∧
    initializeWireframeBox.numVertices = 8 ∧
    initializeWireframeBox.vertices.Nodup ∧
    (∀ v ∈ initializeWireframeBox.vertices,
      (v.x = 0 ∨ v.x = 1) ∧ (v.y = 0 ∨ v.y = 1) ∧ (v.z = 0 ∨ v.z = 1)) ∧
    (∀ a ∈ [(0 : ℚ), 1], ∀ b ∈ [(0 : ℚ), 1], ∀ c ∈ [(0 : ℚ), 1],
      (⟨a, b, c⟩ : Vec3) ∈ initializeWireframeBox.vertices) ∧
    initializeWireframeBox.indices.length = initializeWireframeBox.numIndices ∧
    initializeWireframeBox.numIndices = 24 ∧
    (∀ i ∈ initializeWireframeBox.indices, i < 8) ∧
    (edgesOf initializeWireframeBox.indices).length = 12 ∧
    (edgesOf initializeWireframeBox.indices).Nodup ∧
    (∀ e ∈ edgesOf initializeWireframeBox.indices,
      ((initializeWireframeBox.vertices.getD e.1 ⟨0, 0, 0⟩).differences
        (initializeWireframeBox.vertices.getD e.2 ⟨0, 0, 0⟩)) = 1) := by
  refine ⟨by decide, by decide, by decide, by decide, by decide, by decide, by decide,
    by decide, by decide, by decide, by decide⟩

/-! ## Safety of the reads -/

theorem meshCalls_one_empty_voxel : meshCalls ⟨1, 1, 1, [0]⟩ = some [] := by decide

/-- C15 (fails on the code): after initialisation and `meshBrush` on the
unoccupied 1x1x1 grid the brush vertex list is empty and the cached position is
(0,0,0). A Brushed-mode draw at (0,0,0) takes the path of lines 296-299 and
draws 0 indices, but a Brushed-mode draw at (1,0,0) takes the move path, whose
line 291 reads `_brushVerts[0]` of the empty list. -/
theorem draw_empty_brush_reads_element_zero :
    ∃ st1, meshBrush (initializeReferenceVoxel (fun _ => 0) (fun _ => 0) startup)
        ⟨1, 1, 1, [0]⟩ = some st1 ∧
      st1._brushVerts = [] ∧
      (∃ st2, drawReferenceVoxel (fun _ => 0) (fun _ => 0) st1 (Vec3.ofInts 0 0 0)
        (some ⟨1, 1, 1, [0]⟩) = some st2 ∧ st2.gpu.drawn = [0] ∧ st2.gpu.uploads = []) ∧
      drawReferenceVoxel (fun _ => 0) (fun _ => 0) st1 (Vec3.ofInts 1 0 0)
        (some ⟨1, 1, 1, [0]⟩) = none := by
  cases hrun : meshBrush (initializeReferenceVoxel (fun _ => 0) (fun _ => 0) startup)
      ⟨1, 1, 1, [0]⟩ with
  | none => simp [meshBrush, meshCalls_one_empty_voxel] at hrun
  | some st1 =>
    obtain ⟨calls, hcalls, rfl⟩ := meshBrush_eq_some hrun
    rw [meshCalls_one_empty_voxel] at hcalls
    cases hcalls
    refine ⟨_, rfl, rfl, ⟨_, drawReferenceVoxel_unchanged _ _ _ _ _ ⟨0, 0, 0⟩ rfl (by decide),
      rfl, rfl⟩, ?_⟩
    exact drawReferenceVoxel_brushed_empty _ _ _ _ _ ⟨0, 0, 0⟩ rfl (by decide) rfl

/-- C17 (fails on the code): on the well-formed 2x1x2 grid whose only occupied
voxel is cell (1,0,0), the front test of that cell reads index
`1 + (height + width) = 4` of a four-element array, one past its end. -/
theorem meshBrush_front_test_reads_past_the_array :
    Brush.WellFormed ⟨2, 1, 2, [0, 1, 0, 0]⟩ ∧
    Brush.occupied ⟨2, 1, 2, [0, 1, 0, 0]⟩ 1 0 0 = true ∧
    Brush.cellIndex ⟨2, 1, 2, [0, 1, 0, 0]⟩ 1 0 0 + ((1 : Int) + 2) = 4 ∧
    ¬ ((4 : Int) < 2 * 1 * 2) ∧
    Brush.voxelType ⟨2, 1, 2, [0, 1, 0, 0]⟩
      (Brush.cellIndex ⟨2, 1, 2, [0, 1, 0, 0]⟩ 1 0 0 + ((1 : Int) + 2)) = none ∧
    meshCell ⟨2, 1, 2, [0, 1, 0, 0]⟩ 1 0 0 = none ∧
    meshCalls ⟨2, 1, 2, [0, 1, 0, 0]⟩ = none := by
  refine ⟨by decide, by decide, by decide, by decide, by decide, by decide, by decide⟩

/-! ## The index template -/

theorem length_quadTemplate (j : Nat) : (quadTemplate j).length = 6 := rfl

theorem quadIndices_block (n : Nat) :
    ∀ k, k < n → ((quadIndices n).drop (6 * k)).take 6 = quadTemplate (4 * k) := by
  induction n with
  | zero => intro k hk; omega
  | succ n ih =>
    intro k hk
    rw [quadIndices_succ]
    by_cases hkn : k < n
    · rw [List.drop_append_of_le_length (by rw [length_quadIndices]; omega),
        List.take_append_of_le_length (by rw [List.length_drop, length_quadIndices]; omega)]
      exact ih k hkn
    · have hk0 : k = n := by omega
      subst hk0
      have hlen : (quadIndices k).length = 6 * k := by rw [length_quadIndices]; ring
      rw [← hlen, List.drop_left]
      exact List.take_of_length_le (by rw [length_quadTemplate])

theorem quadIndices_lt (n : Nat) : ∀ i ∈ quadIndices n, i < 4 * n := by
  intro i hi
  unfold quadIndices at hi
  obtain ⟨k, hk, hik⟩ := List.mem_flatMap.mp hi
  have hkn := List.mem_range.mp hk
  simp only [quadTemplate, List.mem_cons, List.mem_singleton, List.not_mem_nil, or_false] at hik
  omega

theorem referenceCubeIndices_eq (cv cn : Nat → ℚ) (st : RenderState) :
    (initializeReferenceVoxel cv cn st)._referenceCubeIndices = quadIndices 6 :=
  fillIndices_eq 6

/-- C14: in every mesh produced by `meshBrush`, with `n` vertices, the six
indices at positions `6k .. 6k+5` are `4k, 4k+1, 4k+2, 4k+2, 4k+3, 4k` for every
quad `k < n/4`, so every index is smaller than `n`; the 36 reference-cube
indices written by `initializeReferenceVoxel` follow the same template for
`k < 6`. -/
theorem meshBrush_index_template (cv cn : Nat → ℚ) (st st1 : RenderState) (b : Brush)
    (hrun : meshBrush st b = some st1) :
    (∀ k, k < st1._brushVerts.length / 4 →
      (st1._brushIndices.drop (6 * k)).take 6 =
        [4 * k, 4 * k + 1, 4 * k + 2, 4 * k + 2, 4 * k + 3, 4 * k]) ∧
    (∀ i ∈ st1._brushIndices, i < st1._brushVerts.length) ∧
    (initializeReferenceVoxel cv cn st)._referenceCubeIndices.length = 36 ∧
    (∀ k, k < 6 →
      ((initializeReferenceVoxel cv cn st)._referenceCubeIndices.drop (6 * k)).take 6 =
        [4 * k, 4 * k + 1, 4 * k + 2, 4 * k + 2, 4 * k + 3, 4 * k]) := by
  obtain ⟨calls, -, rfl⟩ := meshBrush_eq_some hrun
  refine ⟨?_, ?_, ?_, ?_⟩
  · intro k hk
    exact quadIndices_block _ k hk
  · intro i hi
    have h := quadIndices_lt _ i hi
    have hlen := length_brushVertsOf st._voxBaseVerts calls
    show i < (brushVertsOf st._voxBaseVerts calls).length
    omega
  · rw [referenceCubeIndices_eq, length_quadIndices]
  · intro k hk
    rw [referenceCubeIndices_eq]
    exact quadIndices_block 6 k hk

/-- C14, at a concrete input: the 2x1x1 grid with both voxels occupied (10
quads); the indices of quad 9 are 36, 37, 38, 38, 39, 36. -/
theorem meshBrush_index_template_witness :
    meshBrush startup ⟨2, 1, 1, [1, 1]⟩ =
      some ((meshBrush startup ⟨2, 1, 1, [1, 1]⟩).getD startup) ∧
    ((meshBrush startup ⟨2, 1, 1, [1, 1]⟩).getD startup)._brushVerts.length = 40 ∧
    ((((meshBrush startup ⟨2, 1, 1, [1, 1]⟩).getD startup)._brushIndices.drop (6 * 9)).take 6 =
      [36, 37, 38, 38, 39, 36]) := by
  have hlen : ((meshBrush startup ⟨2, 1, 1, [1, 1]⟩).getD startup)._brushVerts.length = 40 := by
    decide
  exact ⟨rfl, hlen,
    (meshBrush_index_template (fun _ => 0) (fun _ => 0) startup _ ⟨2, 1, 1, [1, 1]⟩ rfl).1 9
      (by decide)⟩

/-! ## Consistency of the brush cache -/

theorem translate_zero (v : BlockVertex) : v.translate (Vec3.ofInts 0 0 0) = v := by
  simp [BlockVertex.translate, Vec3.add, Vec3.ofInts]

theorem map_translate_zero (l : List BlockVertex) :
    l.map (fun v => v.translate (Vec3.ofInts 0 0 0)) = l := by
  simp [translate_zero]

/-- After `initializeReferenceVoxel` and `meshBrush` the brush cache is
consistent with the mesh just built. -/
theorem meshBrush_consistent (cv cn : Nat → ℚ) (st0 st2 : RenderState) (b : Brush)
    (h : meshBrush (initializeReferenceVoxel cv cn st0) b = some st2) :
    CacheConsistent st2._brushVerts st2 := by
  obtain ⟨calls, -, rfl⟩ := meshBrush_eq_some h
  refine ⟨by simp [initializeReferenceVoxel], ⟨0, 0, 0, by simp [Vec3.ofInts]⟩, ?_⟩
  have hz : ({ x := 0, y := 0, z := 0 } : Vec3) = Vec3.ofInts 0 0 0 := by simp [Vec3.ofInts]
  simp only [hz, map_translate_zero]

/-- One request that does not move the cursor in Simple mode keeps the brush
cache consistent. -/
theorem step_consistent (cv cn : Nat → ℚ) (mesh : List BlockVertex) (st st1 : RenderState)
    (r : Request) (hc : CacheConsistent mesh st) (hkeep : r.keepsBrushCache st = true)
    (hstep : step cv cn st r = some st1) : CacheConsistent mesh st1 := by
  obtain ⟨hinit, ⟨x0, y0, z0, hlast⟩, hverts⟩ := hc
  obtain ⟨m, hm⟩ := Option.ne_none_iff_exists'.mp hinit
  cases r with
  | color r g bl a =>
    simp only [step, Option.some.injEq] at hstep
    subst hstep
    exact ⟨hinit, ⟨x0, y0, z0, hlast⟩, hverts⟩
  | draw x y z br =>
    simp only [step] at hstep
    cases hch : positionChanged (Vec3.ofInts x y z) st._lastPosition with
    | false =>
      rw [drawReferenceVoxel_unchanged cv cn st _ br m hm hch] at hstep
      cases hstep
      exact ⟨hinit, ⟨x0, y0, z0, hlast⟩, hverts⟩
    | true =>
      cases br with
      | none => simp [Request.keepsBrushCache, hch] at hkeep
      | some b =>
        by_cases hnil : st._brushVerts = []
        · rw [drawReferenceVoxel_brushed_empty cv cn st _ b m hm hch hnil] at hstep
          cases hstep
        · rw [drawReferenceVoxel_brushed_moved cv cn st _ b m hm hch hnil] at hstep
          cases hstep
          refine ⟨by simp, ⟨x, y, z, rfl⟩, ?_⟩
          show st._brushVerts.map _ = mesh.map _
          rw [hverts, List.map_map, hlast]
          apply List.map_congr_left
          intro v _
          simp only [Function.comp, translate_translate, add_moveDelta]

theorem run_consistent (cv cn : Nat → ℚ) (mesh : List BlockVertex) :
    ∀ (reqs : List Request) (st st1 : RenderState), CacheConsistent mesh st →
      keepsBrushCache cv cn st reqs = true → run cv cn st reqs = some st1 →
      CacheConsistent mesh st1
  | [], st, st1, hc, _, hrun => by
    simp only [run, Option.some.injEq] at hrun
    subst hrun
    exact hc
  | r :: rs, st, st1, hc, hkeep, hrun => by
    simp only [run] at hrun
    simp only [keepsBrushCache, Bool.and_eq_true] at hkeep
    cases hstep : step cv cn st r with
    | none => simp [hstep] at hrun
    | some st2 =>
      simp only [hstep] at hrun hkeep
      exact run_consistent cv cn mesh rs st2 st1 (step_consistent cv cn mesh st st2 r hc hkeep.1 hstep)
        hkeep.2 hrun

/-- C18 (as stated, fails on the code): after initialisation and `meshBrush` on
the one-voxel brush, a Simple-mode draw at (1,0,0) sets the cached position to
(1,0,0) and leaves the brush vertices where they were: the brush vertex list is
the mesh at (0,0,0), not the mesh shifted by the cached position. -/
theorem simple_draw_desynchronises_brush_cache :
    ∃ st2 st, meshBrush (initializeReferenceVoxel (fun _ => 0) (fun _ => 0) startup)
        ⟨1, 1, 1, [1]⟩ = some st2 ∧
      run (fun _ => 0) (fun _ => 0) st2 [.draw 1 0 0 none] = some st ∧
      st._lastPosition = Vec3.ofInts 1 0 0 ∧
      st._brushVerts ≠ st2._brushVerts.map (fun v => v.translate st._lastPosition) := by
  obtain ⟨st2, hst2, hne, hlast, hmesh, -⟩ :=
    meshBrush_one_voxel (initializeReferenceVoxel (fun _ => 0) (fun _ => 0) startup)
  have hmoved : positionChanged (Vec3.ofInts 1 0 0) st2._lastPosition = true := by
    rw [hlast]
    decide
  have hdraw := drawReferenceVoxel_simple_moved (fun _ => 0) (fun _ => 0) st2
    (Vec3.ofInts 1 0 0) ⟨0, 0, 0⟩ (by rw [hmesh]; rfl) hmoved
  have hrun : run (fun _ => 0) (fun _ => 0) st2 [.draw 1 0 0 none] =
      drawReferenceVoxel (fun _ => 0) (fun _ => 0) st2 (Vec3.ofInts 1 0 0) none := by
    simp only [run, step]
    cases drawReferenceVoxel (fun _ => 0) (fun _ => 0) st2 (Vec3.ofInts 1 0 0) none <;> rfl
  rw [hdraw] at hrun
  refine ⟨st2, _, hst2, hrun, rfl, ?_⟩
  intro h
  have h0 : st2._brushVerts.map (fun v => v.translate (Vec3.ofInts 0 0 0)) =
      st2._brushVerts.map (fun v => v.translate (Vec3.ofInts 1 0 0)) := by
    rw [map_translate_zero]
    exact h
  have hd := map_translate_injective hne h0
  have hx := congrArg Vec3.x hd
  simp [Vec3.ofInts] at hx

/-- C18 (amended): in every state reached after `initializeReferenceVoxel` and
`meshBrush(brush)` by a sequence of draw requests at integer positions and
`changeReferenceColor` calls in which no Simple-mode draw moves the cursor, the
brush vertex list is the `meshBrush` output with every position shifted by the
cached position (same order, colours and normals as built). -/
theorem brush_cache_consistent (cv cn : Nat → ℚ) (st0 st2 st : RenderState) (b : Brush)
    (reqs : List Request)
    (hmesh : meshBrush (initializeReferenceVoxel cv cn st0) b = some st2)
    (hkeep : keepsBrushCache cv cn st2 reqs = true)
    (hrun : run cv cn st2 reqs = some st) :
    st._brushVerts = st2._brushVerts.map (fun v => v.translate st._lastPosition) :=
  (run_consistent cv cn st2._brushVerts reqs st2 st (meshBrush_consistent cv cn st0 st2 b hmesh)
    hkeep hrun).2.2

/-- C18 (amended), at a concrete input: the one-voxel brush, then a Brushed-mode
draw at (5,0,0), a colour change and a Simple-mode draw at (5,0,0). -/
theorem brush_cache_consistent_witness :
    ∃ st2 st, meshBrush (initializeReferenceVoxel (fun _ => 0) (fun _ => 0) startup)
        ⟨1, 1, 1, [1]⟩ = some st2 ∧
      keepsBrushCache (fun _ => 0) (fun _ => 0) st2
        [.draw 5 0 0 (some ⟨1, 1, 1, [1]⟩), .color 255 0 0 255, .draw 5 0 0 none] = true ∧
      run (fun _ => 0) (fun _ => 0) st2
        [.draw 5 0 0 (some ⟨1, 1, 1, [1]⟩), .color 255 0 0 255, .draw 5 0 0 none] = some st ∧
      st._lastPosition = Vec3.ofInts 5 0 0 ∧
      st._brushVerts = st2._brushVerts.map (fun v => v.translate st._lastPosition) := by
  obtain ⟨st2, hst2, hne, hlast, hmesh, -⟩ :=
    meshBrush_one_voxel (initializeReferenceVoxel (fun _ => 0) (fun _ => 0) startup)
  have hmoved : positionChanged (Vec3.ofInts 5 0 0) st2._lastPosition = true := by
    rw [hlast]
    decide
  obtain ⟨s1, hs1, hl1, m, hm1⟩ : ∃ s1, drawReferenceVoxel (fun _ => 0) (fun _ => 0) st2
      (Vec3.ofInts 5 0 0) (some ⟨1, 1, 1, [1]⟩) = some s1 ∧
      s1._lastPosition = Vec3.ofInts 5 0 0 ∧ ∃ m, s1._referenceCubeMesh = some m :=
    ⟨_, drawReferenceVoxel_brushed_moved (fun _ => 0) (fun _ => 0) st2
      (Vec3.ofInts 5 0 0) ⟨1, 1, 1, [1]⟩ ⟨0, 0, 0⟩ (by rw [hmesh]; rfl) hmoved hne, rfl, _, rfl⟩
  have hsame : positionChanged (Vec3.ofInts 5 0 0)
      (changeReferenceColor s1 255 0 0 255)._lastPosition = false := by
    show positionChanged (Vec3.ofInts 5 0 0) s1._lastPosition = false
    rw [hl1]
    exact positionChanged_self _
  obtain ⟨s3, hd3, hl3⟩ : ∃ s3, drawReferenceVoxel (fun _ => 0) (fun _ => 0)
      (changeReferenceColor s1 255 0 0 255) (Vec3.ofInts 5 0 0) none = some s3 ∧
      s3._lastPosition = Vec3.ofInts 5 0 0 :=
    ⟨_, drawReferenceVoxel_unchanged (fun _ => 0) (fun _ => 0)
      (changeReferenceColor s1 255 0 0 255) (Vec3.ofInts 5 0 0) none m hm1 hsame, hl1⟩
  have hkeep : keepsBrushCache (fun _ => 0) (fun _ => 0) st2
      [.draw 5 0 0 (some ⟨1, 1, 1, [1]⟩), .color 255 0 0 255, .draw 5 0 0 none] = true := by
    simp only [keepsBrushCache, Request.keepsBrushCache, step, hs1, hd3, hsame, Bool.not_false,
      Bool.and_self]
  have hrun : run (fun _ => 0) (fun _ => 0) st2
      [.draw 5 0 0 (some ⟨1, 1, 1, [1]⟩), .color 255 0 0 255, .draw 5 0 0 none] = some s3 := by
    simp only [run, step, hs1, hd3]
  have hinv := brush_cache_consistent (fun _ => 0) (fun _ => 0) startup st2 s3 ⟨1, 1, 1, [1]⟩
    _ hst2 hkeep hrun
  exact ⟨st2, s3, hst2, hkeep, hrun, hl3, hinv⟩

end RenderUtil
